import Mathlib

/-!
Verification of the procedural board generator in
`src/maps/procedural_board.py` (class `ProceduralBoard`).

The Python class is embedded shallowly:
* the mutable `self` object becomes the explicit state `GenState`;
* the process-wide seeded `random` module becomes a stream `s : Nat → Nat`
  of draws together with a cursor `idx` into the stream; a primitive call
  `random.randint(a, b)` consumes one draw and yields `a + s idx % (b-a+1)`,
  `random.choice(l)` (on a non-empty `l`) consumes one draw and yields
  `l[s idx % l.length]`;
* Python exceptions become `Except GenErr`: an out-of-range list access is
  `GenErr.oob` (the code never indexes with a negative value, every read and
  write is behind an explicit bound guard, so Python's negative-index
  wrap-around is never exercised), `random.randint` on an empty range raises
  `GenErr.emptyRange` (Python `ValueError`), and the unbounded
  discard-and-redraw loop in `move` is given an explicit fuel `rj` whose
  exhaustion is the modelling artifact `GenErr.drawFuel`;
* the unbounded `while not self.finished` loop of
  `procedurelyGeneratedBoard` is run for `2·width·height` flattened
  iterations, a bound proved sufficient below (`generate_terminates`).

The ghost fields `carves` and `pops` count carve events (a cell written to
`'X'`) and backtrack pops; they influence nothing and exist only so the
spec's step accounting can be stated.
-/

namespace ProceduralBoard

/-- The failure modes of the embedded code.  `oob` is Python's `IndexError`
(raised on an out-of-range non-negative index; guarded negative offsets are
also mapped here since the code checks them before every access),
`emptyRange` is the `ValueError` that `random.randint(a, b)` raises when
`b < a`, and `drawFuel` is the fuel-exhaustion artifact of the redraw loop
in `move`. -/
inductive GenErr where
  | oob
  | emptyRange
  | drawFuel
  deriving DecidableEq, Repr

/-- Model of `self.board`: a list of rows of single-character cells. -/
abbrev Board := List (List Char)

/-- A `[row, column]` pair, `currentCell` in the Python code.  Coordinates
are integers because the code forms `currentCell[0] - 1` / `currentCell[1] - 1`
before comparing them with `0`. -/
abbrev Cell := Int × Int

/-- Checked cell read `self.board[r][c]`.  The code only ever reads behind
an explicit bound guard, so the negative branch (Python would wrap around)
and the overflow branch (Python `IndexError`) are proved unreachable for
well-formed runs. -/
def readCell (b : Board) (r c : Int) : Except GenErr Char :=
  if r < 0 ∨ c < 0 then .error .oob
  else
    match b[r.toNat]? with
    | none => .error .oob
    | some row =>
      match row[c.toNat]? with
      | none => .error .oob
      | some ch => .ok ch

/-- Checked cell write `self.board[r][c] = ch`. -/
def writeCell (b : Board) (r c : Int) (ch : Char) : Except GenErr Board :=
  if r < 0 ∨ c < 0 then .error .oob
  else
    match b[r.toNat]? with
    | none => .error .oob
    | some row =>
      if c.toNat < row.length then .ok (b.set r.toNat (row.set c.toNat ch))
      else .error .oob

/-- Model of `random.randint(lo, hi)`: one draw from the stream, uniform over
`lo..hi` inclusive; raises `ValueError` (here `emptyRange`) when `hi < lo`.
Returns the drawn value and the advanced stream position. -/
def randint (lo hi : Int) (s : Nat → Nat) (i : Nat) : Except GenErr (Int × Nat) :=
  if hi < lo then .error .emptyRange
  else .ok (lo + (s i : Int) % (hi - lo + 1), i + 1)

/-- The state of a generation run: the fields of the Python object plus the
loop-local `currentCell` (`cur`), the stream position `idx`, and the two
ghost step counters. -/
structure GenState where
  board : Board
  boardWidth : Int
  boardHeight : Int
  finished : Bool
  path : List Cell
  isBacktracking : Bool
  cur : Cell
  idx : Nat
  carves : Nat
  pops : Nat
  deriving DecidableEq, Repr

/-- Model of `moveToSpecificCell(currentCell, character)` (lines 115-116):
`self.board[cell[0]][cell[1]] = character`. -/
def moveToSpecificCell (st : GenState) (cell : Cell) (character : Char) :
    Except GenErr GenState := do
  let b ← writeCell st.board cell.1 cell.2 character
  pure { st with board := b }

/-- Lines 72-75 of `getBlockedDirections`: direction `0` (row+1) is blocked
when it leaves the grid or the neighbour equals `character` or `'O'`. -/
def blockedDir0 (st : GenState) (cell : Cell) (character : Char) :
    Except GenErr (List Int) :=
  if st.boardHeight ≤ cell.1 + 1 then pure [(0 : Int)]
  else do
    let ch ← readCell st.board (cell.1 + 1) cell.2
    pure (if ch = character ∨ ch = 'O' then [(0 : Int)] else [])

/-- Lines 77-80 of `getBlockedDirections`: direction `1` (row-1). -/
def blockedDir1 (st : GenState) (cell : Cell) (character : Char) :
    Except GenErr (List Int) :=
  if cell.1 - 1 < 0 then pure [(1 : Int)]
  else do
    let ch ← readCell st.board (cell.1 - 1) cell.2
    pure (if ch = character ∨ ch = 'O' then [(1 : Int)] else [])

/-- Lines 82-85 of `getBlockedDirections`: direction `2` (column+1). -/
def blockedDir2 (st : GenState) (cell : Cell) (character : Char) :
    Except GenErr (List Int) :=
  if st.boardWidth ≤ cell.2 + 1 then pure [(2 : Int)]
  else do
    let ch ← readCell st.board cell.1 (cell.2 + 1)
    pure (if ch = character ∨ ch = 'O' then [(2 : Int)] else [])

/-- Lines 87-90 of `getBlockedDirections`: direction `3` (column-1). -/
def blockedDir3 (st : GenState) (cell : Cell) (character : Char) :
    Except GenErr (List Int) :=
  if cell.2 - 1 < 0 then pure [(3 : Int)]
  else do
    let ch ← readCell st.board cell.1 (cell.2 - 1)
    pure (if ch = character ∨ ch = 'O' then [(3 : Int)] else [])

/-- Model of `getBlockedDirections(currentCell, character='X')` (lines 69-92): the
four direction checks in source order, results appended. -/
def getBlockedDirections (st : GenState) (cell : Cell) (character : Char) :
    Except GenErr (List Int) := do
  let b0 ← blockedDir0 st cell character
  let b1 ← blockedDir1 st cell character
  let b2 ← blockedDir2 st cell character
  let b3 ← blockedDir3 st cell character
  pure (b0 ++ b1 ++ b2 ++ b3)

/-- Lines 97-99 of `foundUnvisitedCell`: candidate in direction row+1. -/
def unvisited0 (st : GenState) (cell : Cell) : Except GenErr (List Cell) :=
  if cell.1 + 1 < st.boardHeight then do
    let ch ← readCell st.board (cell.1 + 1) cell.2
    pure (if ch = '.' then [((cell.1 + 1, cell.2) : Cell)] else [])
  else pure []

/-- Lines 101-103 of `foundUnvisitedCell`: candidate in direction row-1. -/
def unvisited1 (st : GenState) (cell : Cell) : Except GenErr (List Cell) :=
  if 0 ≤ cell.1 - 1 then do
    let ch ← readCell st.board (cell.1 - 1) cell.2
    pure (if ch = '.' then [((cell.1 - 1, cell.2) : Cell)] else [])
  else pure []

/-- Lines 105-107 of `foundUnvisitedCell`: candidate in direction column+1. -/
def unvisited2 (st : GenState) (cell : Cell) : Except GenErr (List Cell) :=
  if cell.2 + 1 < st.boardWidth then do
    let ch ← readCell st.board cell.1 (cell.2 + 1)
    pure (if ch = '.' then [((cell.1, cell.2 + 1) : Cell)] else [])
  else pure []

/-- Lines 109-111 of `foundUnvisitedCell`: candidate in direction column-1. -/
def unvisited3 (st : GenState) (cell : Cell) : Except GenErr (List Cell) :=
  if 0 ≤ cell.2 - 1 then do
    let ch ← readCell st.board cell.1 (cell.2 - 1)
    pure (if ch = '.' then [((cell.1, cell.2 - 1) : Cell)] else [])
  else pure []

/-- Model of `foundUnvisitedCell(currentCell)` (lines 94-113): collect the in-bounds
neighbours holding `'.'` in the order row+1, row-1, column+1, column-1, then
`random.choice` among them (one draw) if any, else the empty result (no
draw consumed).  Returns the chosen cell (or `none`) and the new stream
position. -/
def foundUnvisitedCell (st : GenState) (cell : Cell) (s : Nat → Nat) :
    Except GenErr (Option Cell × Nat) := do
  let c0 ← unvisited0 st cell
  let c1 ← unvisited1 st cell
  let c2 ← unvisited2 st cell
  let c3 ← unvisited3 st cell
  match c0 ++ c1 ++ c2 ++ c3 with
  | [] => pure (none, st.idx)
  | x :: xs => pure (some ((x :: xs).getD (s st.idx % (xs.length + 1)) x), st.idx + 1)

/-- The redraw loop of `move` (lines 128-130): `randomDirection =
random.randint(0, 3)`, redrawn while it lies in `blocked`.  `randint(0, 3)`
never raises, so it is inlined as `s i % 4`.  The loop is unbounded in the
source; the fuel argument makes it total, its exhaustion is the artifact
error `drawFuel`. -/
def drawUnblocked (s : Nat → Nat) (blocked : List Int) (i : Nat) :
    Nat → Except GenErr (Int × Nat)
  | 0 => .error .drawFuel
  | fuel + 1 =>
    if ((s i : Int) % 4) ∈ blocked then drawUnblocked s blocked (i + 1) fuel
    else .ok ((s i : Int) % 4, i + 1)

/-- The destination cell one step from `cur` in direction `d` (the four
`if randomDirection == k` blocks of `move`, lines 132-146); any other `d`
moves nowhere, as in the source where none of the four `if`s would fire. -/
def dirTarget (cur : Cell) (d : Int) : Cell :=
  if d = 0 then (cur.1 + 1, cur.2)
  else if d = 1 then (cur.1 - 1, cur.2)
  else if d = 2 then (cur.1, cur.2 + 1)
  else if d = 3 then (cur.1, cur.2 - 1)
  else cur

/-- Model of `move(currentCell, blockedDirections, character='X')` (lines 126-148):
when fewer than four directions are blocked, rejection-sample a direction,
write `character` into the destination, advance the cursor and append the
new cursor position to `self.path`.  When all four are blocked the call
does nothing.  The drawn `d` always lies in `0..3` (proved below), so the
degenerate no-write branch is dead. -/
def move (st : GenState) (blocked : List Int) (s : Nat → Nat) (rj : Nat)
    (character : Char) : Except GenErr GenState :=
  if blocked.length < 4 then do
    let (d, i') ← drawUnblocked s blocked st.idx rj
    if d = 0 ∨ d = 1 ∨ d = 2 ∨ d = 3 then do
      let b ← writeCell st.board (dirTarget st.cur d).1 (dirTarget st.cur d).2
        character
      pure { st with board := b, cur := dirTarget st.cur d,
                     path := st.path ++ [dirTarget st.cur d],
                     idx := i', carves := st.carves + 1 }
    else
      pure { st with cur := dirTarget st.cur d,
                     path := st.path ++ [dirTarget st.cur d], idx := i' }
  else pure st

/-- Model of `checkIfThereAreNoMoreDotsInTheBoard()` (lines 62-67): the source scans
indices `i < boardHeight`, `j < boardWidth`; the board is exactly
`boardHeight × boardWidth` throughout every well-formed run (proved below as
shape preservation), on which the scan is this membership test. -/
def checkIfThereAreNoMoreDotsInTheBoard (b : Board) : Bool :=
  b.all (fun row => row.all (fun ch => ch ≠ '.'))

/-- Cell finalization of `polishBoard` (lines 121-124): `'X'` becomes the
wall marker `'#'`, then `'O'` becomes the floor marker `'.'` (the two `if`s
are sequential, but a cell just set to `'#'` is not `'O'`, so they act as
this two-way case split). -/
def polishChar (ch : Char) : Char :=
  if ch = 'X' then '#' else if ch = 'O' then '.' else ch

/-- Model of `polishBoard()` (lines 118-124): the source loops over indices
`i < boardHeight`, `j < boardWidth`, which on an exactly
`boardHeight × boardWidth` board (shape preservation, proved below)
rewrites every cell. -/
def polishBoard (b : Board) : Board :=
  b.map (fun row => row.map polishChar)

/-- One flattened iteration of the generation loop (lines 25-57).  The
three branches are: one pass of the inner backtracking `while` (lines
26-40), the stack-empty termination check (lines 42-44), and one forward
iteration (lines 47-57: blocked directions, mode switch, `move`, dots
check).  Control flow is identical to the source: consecutive flattened
steps replay exactly the source's nested-loop schedule. -/
def step (s : Nat → Nat) (rj : Nat) (st : GenState) : Except GenErr GenState :=
  if st.isBacktracking ∧ st.path ≠ [] then
    match st.path.getLast? with
    | none => .error .oob
    | some cell => do
      let st1 : GenState := { st with path := st.path.dropLast, pops := st.pops + 1 }
      let st2 ← moveToSpecificCell st1 cell 'O'
      let (uv, i') ← foundUnvisitedCell st2 cell s
      match uv with
      | some u => do
        let st3 : GenState :=
          { st2 with idx := i', cur := u, carves := st2.carves + 1 }
        let st4 ← moveToSpecificCell st3 u 'X'
        pure { st4 with isBacktracking := false }
      | none => pure { st2 with idx := i', cur := cell }
  else if st.isBacktracking ∧ st.path = [] then
    pure { st with finished := true }
  else do
    let blocked ← getBlockedDirections st st.cur 'X'
    let st1 : GenState :=
      if blocked.length = 4 then { st with isBacktracking := true } else st
    let st2 ← move st1 blocked s rj 'X'
    pure (if checkIfThereAreNoMoreDotsInTheBoard st2.board then
            { st2 with finished := true }
          else st2)

/-- Iterate `step` for at most `fuel` iterations, stopping once
`finished` is set (the `while not self.finished` loop). -/
def runSteps (s : Nat → Nat) (rj : Nat) : Nat → GenState → Except GenErr GenState
  | 0, st => .ok st
  | fuel + 1, st =>
    if st.finished then .ok st
    else do
      let st' ← step s rj st
      runSteps s rj fuel st'

/-- Lines 21-23 of `procedurelyGeneratedBoard`: draw the start cell
(`randint(0, boardHeight-1)` then `randint(0, boardWidth-1)`) and write
`'X'` there.  The remaining object fields are as `__init__` leaves them
(`finished = False`, `path = []`, `isBacktracking = False`); the board is
the buffer the caller handed to `__init__` — the generator performs no
initialization pass over it. -/
def initPhase (board : Board) (w h : Int) (s : Nat → Nat) :
    Except GenErr GenState := do
  let (r, i1) ← randint 0 (h - 1) s 0
  let (c, i2) ← randint 0 (w - 1) s i1
  let st : GenState :=
    { board := board, boardWidth := w, boardHeight := h, finished := false,
      path := [], isBacktracking := false, cur := (r, c), idx := i2,
      carves := 1, pops := 0 }
  moveToSpecificCell st (r, c) 'X'

/-- The loop fuel used for a `w × h` run: `2·w·h` flattened iterations,
proved sufficient below (`generate_terminates`'s measure argument). -/
def genFuel (w h : Int) : Nat := 2 * (h.toNat * w.toNat)

/-- Model of `procedurelyGeneratedBoard()` on a caller-supplied buffer (the Python
constructor argument `board`): the start-cell phase, the generation loop,
then `polishBoard` when `finished` (the source reaches line 59 only with
`finished` true; an unfinished state can only be the fuel artifact). -/
def procedurelyGeneratedBoard (board : Board) (w h : Int) (s : Nat → Nat)
    (rj : Nat) : Except GenErr GenState := do
  let st0 ← initPhase board w h s
  let st ← runSteps s rj (genFuel w h) st0
  pure (if st.finished then { st with board := polishBoard st.board } else st)

/-- The cell counted by the spec as `Unvisited`: the number of `'.'` cells,
the quantity strictly decreased by every carve. -/
def dotCount (b : Board) : Nat := (b.map (fun row => row.count '.')).sum

/-- The termination measure of the flattened loop: two per unvisited cell,
one per stack entry, and one for being in forward mode. -/
def measureM (st : GenState) : Nat :=
  2 * dotCount st.board + st.path.length + (if st.isBacktracking then 0 else 1)

/-- The all-`Unvisited` (`'.'`) buffer of the given dimensions: the fresh
grid the spec's `generate(width, height, seed)` runs on. -/
def freshBoard (w h : Int) : Board :=
  List.replicate h.toNat (List.replicate w.toNat '.')

/-- The spec-level entry point: a generation run on a fresh all-`'.'`
buffer of the requested dimensions. -/
def generate (w h : Int) (s : Nat → Nat) (rj : Nat) : Except GenErr GenState :=
  procedurelyGeneratedBoard (freshBoard w h) w h s rj

/-! ### Well-formedness predicates -/

/-- The buffer is exactly `h` rows of exactly `w` cells. -/
abbrev Shape (b : Board) (w h : Int) : Prop :=
  b.length = h.toNat ∧ ∀ row ∈ b, row.length = w.toNat

/-- A `[row, column]` pair lies inside a `w × h` grid. -/
abbrev InB (w h : Int) (p : Cell) : Prop :=
  0 ≤ p.1 ∧ p.1 < h ∧ 0 ≤ p.2 ∧ p.2 < w

/-- Every cell is one of the three generation states `'.'`, `'X'`, `'O'`. -/
abbrev AlphaOK (b : Board) : Prop :=
  ∀ row ∈ b, ∀ ch ∈ row, ch = '.' ∨ ch = 'X' ∨ ch = 'O'

/-- The run invariant: well-shaped board, in-bounds cursor and stack
entries, and only generation-internal cell states. -/
structure StInv (st : GenState) : Prop where
  shape : Shape st.board st.boardWidth st.boardHeight
  curIn : InB st.boardWidth st.boardHeight st.cur
  pathIn : ∀ p ∈ st.path, InB st.boardWidth st.boardHeight p
  alpha : AlphaOK st.board

/-! ### Basic facts about checked reads and writes -/

lemma mem_of_elem? {α : Type} {l : List α} {n : Nat} {a : α}
    (h : l[n]? = some a) : a ∈ l :=
  List.mem_iff_getElem?.mpr ⟨n, h⟩

lemma readCell_eq {b : Board} {r c : Int} {row : List Char} {d : Char}
    (h0 : ¬(r < 0 ∨ c < 0)) (hb : b[r.toNat]? = some row)
    (hrow : row[c.toNat]? = some d) : readCell b r c = .ok d := by
  simp only [readCell, hb, hrow]
  rw [if_neg h0]

lemma readCell_ok {b : Board} {w h : Int} (hs : Shape b w h) {r c : Int}
    (h1 : 0 ≤ r) (h2 : r < h) (h3 : 0 ≤ c) (h4 : c < w) :
    ∃ ch, readCell b r c = .ok ch ∧ ∃ row ∈ b, ch ∈ row := by
  have hlen : b.length = h.toNat := hs.1
  have hr : r.toNat < b.length := by omega
  have hmem : b[r.toNat] ∈ b := List.getElem_mem hr
  have hrl : b[r.toNat].length = w.toNat := hs.2 _ hmem
  have hc : c.toNat < b[r.toNat].length := by omega
  exact ⟨b[r.toNat][c.toNat],
    readCell_eq (by omega) (List.getElem?_eq_getElem hr)
      (List.getElem?_eq_getElem hc),
    b[r.toNat], hmem, List.getElem_mem hc⟩

lemma readCell_ok_iff {b : Board} {r c : Int} {ch : Char} :
    readCell b r c = .ok ch ↔
      ¬(r < 0 ∨ c < 0) ∧ ∃ row, b[r.toNat]? = some row ∧
        row[c.toNat]? = some ch := by
  unfold readCell
  split
  · rename_i h; simp [h]
  · rename_i h
    rcases hb : b[r.toNat]? with _ | row
    · simp [hb, h]
    · rcases hrow : row[c.toNat]? with _ | d
      · simp [hb, hrow, h]
      · simp [hb, hrow, h]

lemma readCell_mem {b : Board} {r c : Int} {ch : Char}
    (hr : readCell b r c = .ok ch) : ∃ row ∈ b, ch ∈ row := by
  obtain ⟨-, row, hb, hrow⟩ := readCell_ok_iff.mp hr
  exact ⟨row, mem_of_elem? hb, mem_of_elem? hrow⟩

lemma writeCell_ok_iff {b : Board} {r c : Int} {ch : Char} {b' : Board} :
    writeCell b r c ch = .ok b' ↔
      ¬(r < 0 ∨ c < 0) ∧ ∃ row, b[r.toNat]? = some row ∧ c.toNat < row.length ∧
        b' = b.set r.toNat (row.set c.toNat ch) := by
  unfold writeCell
  split
  · rename_i h; simp [h]
  · rename_i h
    rcases hb : b[r.toNat]? with _ | row
    · simp [hb, h]
    · rcases Nat.lt_or_ge c.toNat row.length with hcl | hcl
      · simp only [hb, h, if_pos hcl]
        constructor
        · intro he; cases he; exact ⟨by simp, row, rfl, hcl, rfl⟩
        · rintro ⟨-, row', hrow', -, rfl⟩
          obtain rfl : row = row' := Option.some.inj hrow'
          rfl
      · simp only [hb, h, if_neg (by omega : ¬c.toNat < row.length)]
        constructor
        · intro he; exact Except.noConfusion he
        · rintro ⟨-, row', hrow', hcl', rfl⟩
          obtain rfl : row = row' := Option.some.inj hrow'
          omega

lemma writeCell_inv {b : Board} {r c : Int} {ch : Char} {b' : Board}
    (hw : writeCell b r c ch = .ok b') :
    0 ≤ r ∧ 0 ≤ c ∧ ∃ row, b[r.toNat]? = some row ∧ c.toNat < row.length ∧
      b' = b.set r.toNat (row.set c.toNat ch) := by
  obtain ⟨h0, row, hb, hcl, rfl⟩ := writeCell_ok_iff.mp hw
  exact ⟨by omega, by omega, row, hb, hcl, rfl⟩

lemma writeCell_eq {b : Board} {r c : Int} {row : List Char} {ch : Char}
    (h0 : ¬(r < 0 ∨ c < 0)) (hb : b[r.toNat]? = some row)
    (hc : c.toNat < row.length) :
    writeCell b r c ch = .ok (b.set r.toNat (row.set c.toNat ch)) := by
  simp only [writeCell, hb]
  rw [if_neg h0, if_pos hc]

lemma writeCell_ok {b : Board} {w h : Int} (hs : Shape b w h) {r c : Int}
    (h1 : 0 ≤ r) (h2 : r < h) (h3 : 0 ≤ c) (h4 : c < w) (ch : Char) :
    ∃ b', writeCell b r c ch = .ok b' := by
  have hlen : b.length = h.toNat := hs.1
  have hr : r.toNat < b.length := by omega
  have hmem : b[r.toNat] ∈ b := List.getElem_mem hr
  have hrl : b[r.toNat].length = w.toNat := hs.2 _ hmem
  have hc : c.toNat < b[r.toNat].length := by omega
  exact ⟨_, writeCell_eq (by omega) (List.getElem?_eq_getElem hr) hc⟩

lemma writeCell_shape {b : Board} {w h : Int} {r c : Int} {ch : Char} {b' : Board}
    (hs : Shape b w h) (hw : writeCell b r c ch = .ok b') : Shape b' w h := by
  obtain ⟨_, _, row, hrow, _, rfl⟩ := writeCell_inv hw
  constructor
  · simpa using hs.1
  · intro row' hrow'
    rcases List.mem_or_eq_of_mem_set hrow' with hm | rfl
    · exact hs.2 _ hm
    · rw [List.length_set]
      exact hs.2 _ (mem_of_elem? hrow)

lemma readCell_writeCell_self {b : Board} {r c : Int} {ch : Char} {b' : Board}
    (hw : writeCell b r c ch = .ok b') : readCell b' r c = .ok ch := by
  obtain ⟨hr0, hc0, row, hb, hcl, rfl⟩ := writeCell_inv hw
  have hr : r.toNat < b.length := (List.getElem?_eq_some_iff.mp hb).1
  exact readCell_eq (by omega) (List.getElem?_set_self hr)
    (List.getElem?_set_self hcl)

lemma readCell_writeCell_other {b : Board} {r c : Int} {ch : Char} {b' : Board}
    (hw : writeCell b r c ch = .ok b') {r' c' : Int}
    (hne : (r', c') ≠ (r, c)) : readCell b' r' c' = readCell b r' c' := by
  obtain ⟨hr0, hc0, row, hb, hcl, rfl⟩ := writeCell_inv hw
  by_cases h0 : r' < 0 ∨ c' < 0
  · unfold readCell; rw [if_pos h0, if_pos h0]
  · by_cases hrr : r' = r
    · subst hrr
      have hcc : c' ≠ c := fun hc => hne (by rw [hc])
      have hr : r'.toNat < b.length := (List.getElem?_eq_some_iff.mp hb).1
      unfold readCell
      rw [if_neg h0, if_neg h0, List.getElem?_set_self hr, hb]
      simp only [List.getElem?_set_ne (by omega : c.toNat ≠ c'.toNat)]
    · unfold readCell
      rw [if_neg h0, if_neg h0,
        List.getElem?_set_ne (by omega : r.toNat ≠ r'.toNat)]

lemma writeCell_alpha {b : Board} {r c : Int} {ch : Char} {b' : Board}
    (ha : AlphaOK b) (hw : writeCell b r c ch = .ok b')
    (hch : ch = '.' ∨ ch = 'X' ∨ ch = 'O') : AlphaOK b' := by
  obtain ⟨_, _, row, hrow, _, rfl⟩ := writeCell_inv hw
  intro row' hrow' d hd
  rcases List.mem_or_eq_of_mem_set hrow' with hm | rfl
  · exact ha _ hm _ hd
  · rcases List.mem_or_eq_of_mem_set hd with hm | rfl
    · exact ha _ (mem_of_elem? hrow) _ hm
    · exact hch

/-! ### Counting unvisited cells -/

lemma count_set_le (l : List Char) (j : Nat) (ch : Char) (hch : ch ≠ '.') :
    (l.set j ch).count '.' ≤ l.count '.' := by
  induction l generalizing j with
  | nil => simp
  | cons a t ih =>
    cases j with
    | zero =>
      simp only [List.set_cons_zero, List.count_cons, beq_iff_eq, if_neg hch]
      split <;> omega
    | succ j =>
      simp only [List.set_cons_succ, List.count_cons]
      have := ih j
      omega

lemma count_set_lt (l : List Char) (j : Nat) (ch : Char) (hch : ch ≠ '.')
    (hj : l[j]? = some '.') : (l.set j ch).count '.' < l.count '.' := by
  induction l generalizing j with
  | nil => simp at hj
  | cons a t ih =>
    cases j with
    | zero =>
      simp only [List.getElem?_cons_zero] at hj
      obtain rfl : a = '.' := Option.some.inj hj
      rw [List.set_cons_zero, List.count_cons, List.count_cons,
        show (ch == '.') = false from beq_eq_false_iff_ne.mpr hch,
        beq_self_eq_true]
      simp
    | succ j =>
      simp only [List.getElem?_cons_succ] at hj
      simp only [List.set_cons_succ, List.count_cons]
      have := ih j hj
      omega

lemma sum_set_le (l : List Nat) (i : Nat) (x v : Nat) (hv : l[i]? = some v)
    (hx : x ≤ v) : (l.set i x).sum ≤ l.sum := by
  induction l generalizing i with
  | nil => simp
  | cons a t ih =>
    cases i with
    | zero =>
      simp only [List.getElem?_cons_zero] at hv
      obtain rfl : a = v := Option.some.inj hv
      simp only [List.set_cons_zero, List.sum_cons]
      omega
    | succ i =>
      simp only [List.getElem?_cons_succ] at hv
      simp only [List.set_cons_succ, List.sum_cons]
      have := ih i hv
      omega

lemma sum_set_lt (l : List Nat) (i : Nat) (x v : Nat) (hv : l[i]? = some v)
    (hx : x < v) : (l.set i x).sum < l.sum := by
  induction l generalizing i with
  | nil => simp at hv
  | cons a t ih =>
    cases i with
    | zero =>
      simp only [List.getElem?_cons_zero] at hv
      obtain rfl : a = v := Option.some.inj hv
      simp only [List.set_cons_zero, List.sum_cons]
      omega
    | succ i =>
      simp only [List.getElem?_cons_succ] at hv
      simp only [List.set_cons_succ, List.sum_cons]
      have := ih i hv
      omega

lemma dotCount_write_le {b b' : Board} {r c : Int} {ch : Char}
    (hw : writeCell b r c ch = .ok b') (hch : ch ≠ '.') :
    dotCount b' ≤ dotCount b := by
  obtain ⟨-, -, row, hb, hcl, rfl⟩ := writeCell_inv hw
  unfold dotCount
  rw [List.map_set]
  refine sum_set_le _ _ _ (row.count '.') ?_ ?_
  · rw [List.getElem?_map, hb]; rfl
  · exact count_set_le row c.toNat ch hch

lemma dotCount_write_lt {b b' : Board} {r c : Int} {ch : Char}
    (hw : writeCell b r c ch = .ok b') (hch : ch ≠ '.')
    (hdot : readCell b r c = .ok '.') : dotCount b' < dotCount b := by
  obtain ⟨-, -, row, hb, hcl, rfl⟩ := writeCell_inv hw
  obtain ⟨-, row', hb', hrow'⟩ := readCell_ok_iff.mp hdot
  obtain rfl : row = row' := Option.some.inj (hb.symm.trans hb')
  unfold dotCount
  rw [List.map_set]
  refine sum_set_lt _ _ _ (row.count '.') ?_ ?_
  · rw [List.getElem?_map, hb]; rfl
  · exact count_set_lt row c.toNat ch hch hrow'

/-! ### The fresh all-unvisited buffer -/

lemma shape_freshBoard (w h : Int) : Shape (freshBoard w h) w h := by
  refine ⟨by simp [freshBoard], ?_⟩
  intro row hrow
  rw [List.eq_of_mem_replicate hrow]
  simp

lemma alpha_freshBoard (w h : Int) : AlphaOK (freshBoard w h) := by
  intro row hrow ch hch
  rw [List.eq_of_mem_replicate hrow] at hch
  exact Or.inl (List.eq_of_mem_replicate hch)

lemma dotCount_freshBoard (w h : Int) :
    dotCount (freshBoard w h) = h.toNat * w.toNat := by
  simp [dotCount, freshBoard, List.map_replicate, List.sum_replicate,
    smul_eq_mul, List.count_replicate_self]

lemma readCell_freshBoard {w h r c : Int} (h1 : 0 ≤ r) (h2 : r < h)
    (h3 : 0 ≤ c) (h4 : c < w) : readCell (freshBoard w h) r c = .ok '.' := by
  unfold freshBoard
  exact readCell_eq (by omega)
    (List.getElem?_replicate_of_lt (by omega))
    (List.getElem?_replicate_of_lt (by omega))

/-! ### Small helpers -/

lemma getD_mem {α : Type} (x : α) (xs : List α) (n : Nat) :
    (x :: xs).getD n x ∈ x :: xs := by
  rw [List.getD_eq_getElem?_getD]
  rcases hx : (x :: xs)[n]? with _ | a
  · exact List.mem_cons_self x xs
  · exact mem_of_elem? hx

lemma readCell_polish {b : Board} {r c : Int} {ch : Char}
    (hr : readCell b r c = .ok ch) :
    readCell (polishBoard b) r c = .ok (polishChar ch) := by
  obtain ⟨h0, row, hb, hrow⟩ := readCell_ok_iff.mp hr
  refine @readCell_eq (polishBoard b) r c (row.map polishChar) (polishChar ch)
    h0 ?_ ?_
  · unfold polishBoard
    rw [List.getElem?_map, hb]
    rfl
  · rw [List.getElem?_map, hrow]
    rfl

/-! ### Monadic plumbing for `Except GenErr` -/

@[simp] lemma pureE_eq {α : Type} (a : α) :
    (pure a : Except GenErr α) = .ok a := rfl

@[simp] lemma bindE_error {α β : Type} (e : GenErr)
    (f : α → Except GenErr β) :
    (do let a ← (Except.error e : Except GenErr α); f a) = .error e := rfl

@[simp] lemma bindE_ok {α β : Type} (a : α) (f : α → Except GenErr β) :
    (do let x ← (Except.ok a : Except GenErr α); f x) = f a := rfl

lemma bindE_ok_inv {α β : Type} {x : Except GenErr α}
    {f : α → Except GenErr β} {v : β}
    (h : (do let a ← x; f a) = .ok v) : ∃ a, x = .ok a ∧ f a = .ok v := by
  rcases x with e | a
  · exact Except.noConfusion h
  · exact ⟨a, rfl, h⟩

lemma bindE_error_inv {α β : Type} {x : Except GenErr α}
    {f : α → Except GenErr β} {e : GenErr}
    (h : (do let a ← x; f a) = .error e) :
    x = .error e ∨ ∃ a, x = .ok a ∧ f a = .error e := by
  rcases x with e' | a
  · left; cases h; rfl
  · exact Or.inr ⟨a, rfl, h⟩

/-! ### `moveToSpecificCell` -/

lemma moveToSpecificCell_ok_inv {st : GenState} {cell : Cell} {ch : Char}
    {st' : GenState} (h : moveToSpecificCell st cell ch = .ok st') :
    ∃ b', writeCell st.board cell.1 cell.2 ch = .ok b' ∧
      st' = { st with board := b' } := by
  unfold moveToSpecificCell at h
  obtain ⟨b', hw, hp⟩ := bindE_ok_inv h
  exact ⟨b', hw, (Except.ok.inj hp).symm⟩

lemma moveToSpecificCell_ok {st : GenState} {cell : Cell}
    (hs : Shape st.board st.boardWidth st.boardHeight)
    (hc : InB st.boardWidth st.boardHeight cell) (ch : Char) :
    ∃ st', moveToSpecificCell st cell ch = .ok st' := by
  obtain ⟨b', hw⟩ := writeCell_ok hs hc.1 hc.2.1 hc.2.2.1 hc.2.2.2 ch
  exact ⟨{ st with board := b' }, by unfold moveToSpecificCell; rw [hw]; rfl⟩

/-! ### `getBlockedDirections` -/

lemma blockedDir0_ok {st : GenState} {cell : Cell}
    (hs : Shape st.board st.boardWidth st.boardHeight)
    (hc : InB st.boardWidth st.boardHeight cell) (character : Char) :
    ∃ l, blockedDir0 st cell character = .ok l ∧ l.length ≤ 1 := by
  obtain ⟨hc1, hc2, hc3, hc4⟩ := hc
  unfold blockedDir0
  by_cases hp : st.boardHeight ≤ cell.1 + 1
  · exact ⟨[0], by rw [if_pos hp]; rfl, by simp⟩
  · obtain ⟨ch, hch, -⟩ :=
      @readCell_ok st.board st.boardWidth st.boardHeight hs
        (cell.1 + 1) cell.2 (by omega) (by omega) (by omega) (by omega)
    refine ⟨if ch = character ∨ ch = 'O' then [0] else [], ?_, by split <;> simp⟩
    rw [if_neg hp]
    simp [hch]

lemma blockedDir1_ok {st : GenState} {cell : Cell}
    (hs : Shape st.board st.boardWidth st.boardHeight)
    (hc : InB st.boardWidth st.boardHeight cell) (character : Char) :
    ∃ l, blockedDir1 st cell character = .ok l ∧ l.length ≤ 1 := by
  obtain ⟨hc1, hc2, hc3, hc4⟩ := hc
  unfold blockedDir1
  by_cases hp : cell.1 - 1 < 0
  · exact ⟨[1], by rw [if_pos hp]; rfl, by simp⟩
  · obtain ⟨ch, hch, -⟩ :=
      @readCell_ok st.board st.boardWidth st.boardHeight hs
        (cell.1 - 1) cell.2 (by omega) (by omega) (by omega) (by omega)
    refine ⟨if ch = character ∨ ch = 'O' then [1] else [], ?_, by split <;> simp⟩
    rw [if_neg hp]
    simp [hch]

lemma blockedDir2_ok {st : GenState} {cell : Cell}
    (hs : Shape st.board st.boardWidth st.boardHeight)
    (hc : InB st.boardWidth st.boardHeight cell) (character : Char) :
    ∃ l, blockedDir2 st cell character = .ok l ∧ l.length ≤ 1 := by
  obtain ⟨hc1, hc2, hc3, hc4⟩ := hc
  unfold blockedDir2
  by_cases hp : st.boardWidth ≤ cell.2 + 1
  · exact ⟨[2], by rw [if_pos hp]; rfl, by simp⟩
  · obtain ⟨ch, hch, -⟩ :=
      @readCell_ok st.board st.boardWidth st.boardHeight hs
        cell.1 (cell.2 + 1) (by omega) (by omega) (by omega) (by omega)
    refine ⟨if ch = character ∨ ch = 'O' then [2] else [], ?_, by split <;> simp⟩
    rw [if_neg hp]
    simp [hch]

lemma blockedDir3_ok {st : GenState} {cell : Cell}
    (hs : Shape st.board st.boardWidth st.boardHeight)
    (hc : InB st.boardWidth st.boardHeight cell) (character : Char) :
    ∃ l, blockedDir3 st cell character = .ok l ∧ l.length ≤ 1 := by
  obtain ⟨hc1, hc2, hc3, hc4⟩ := hc
  unfold blockedDir3
  by_cases hp : cell.2 - 1 < 0
  · exact ⟨[3], by rw [if_pos hp]; rfl, by simp⟩
  · obtain ⟨ch, hch, -⟩ :=
      @readCell_ok st.board st.boardWidth st.boardHeight hs
        cell.1 (cell.2 - 1) (by omega) (by omega) (by omega) (by omega)
    refine ⟨if ch = character ∨ ch = 'O' then [3] else [], ?_, by split <;> simp⟩
    rw [if_neg hp]
    simp [hch]

lemma getBlockedDirections_ok {st : GenState} {cell : Cell}
    (hs : Shape st.board st.boardWidth st.boardHeight)
    (hc : InB st.boardWidth st.boardHeight cell) (character : Char) :
    ∃ bl, getBlockedDirections st cell character = .ok bl ∧ bl.length ≤ 4 := by
  obtain ⟨l0, e0, hl0⟩ := blockedDir0_ok hs hc character
  obtain ⟨l1, e1, hl1⟩ := blockedDir1_ok hs hc character
  obtain ⟨l2, e2, hl2⟩ := blockedDir2_ok hs hc character
  obtain ⟨l3, e3, hl3⟩ := blockedDir3_ok hs hc character
  refine ⟨l0 ++ l1 ++ l2 ++ l3, ?_, ?_⟩
  · simp only [getBlockedDirections, e0, e1, e2, e3, bindE_ok]
    rfl
  · simp only [List.length_append]
    omega

lemma getBlockedDirections_inv {st : GenState} {cell : Cell}
    {character : Char} {bl : List Int}
    (h : getBlockedDirections st cell character = .ok bl) :
    ∃ l0 l1 l2 l3, blockedDir0 st cell character = .ok l0 ∧
      blockedDir1 st cell character = .ok l1 ∧
      blockedDir2 st cell character = .ok l2 ∧
      blockedDir3 st cell character = .ok l3 ∧
      bl = l0 ++ l1 ++ l2 ++ l3 := by
  unfold getBlockedDirections at h
  obtain ⟨l0, e0, h⟩ := bindE_ok_inv h
  obtain ⟨l1, e1, h⟩ := bindE_ok_inv h
  obtain ⟨l2, e2, h⟩ := bindE_ok_inv h
  obtain ⟨l3, e3, h⟩ := bindE_ok_inv h
  exact ⟨l0, l1, l2, l3, e0, e1, e2, e3, (Except.ok.inj h).symm⟩

lemma blockedDir0_not_mem {st : GenState} {cell : Cell} {character : Char}
    {l : List Int} (h : blockedDir0 st cell character = .ok l)
    (h0 : (0 : Int) ∉ l) :
    cell.1 + 1 < st.boardHeight ∧
      ∃ ch, readCell st.board (cell.1 + 1) cell.2 = .ok ch ∧
        ch ≠ character ∧ ch ≠ 'O' := by
  unfold blockedDir0 at h
  split at h
  · cases h; simp at h0
  · rename_i hp
    obtain ⟨ch, hch, hpure⟩ := bindE_ok_inv h
    obtain rfl : l = _ := (Except.ok.inj hpure).symm
    refine ⟨by omega, ch, hch, ?_⟩
    by_cases hcc : ch = character ∨ ch = 'O'
    · rw [if_pos hcc] at h0; simp at h0
    · push_neg at hcc; exact hcc

lemma blockedDir1_not_mem {st : GenState} {cell : Cell} {character : Char}
    {l : List Int} (h : blockedDir1 st cell character = .ok l)
    (h0 : (1 : Int) ∉ l) :
    0 ≤ cell.1 - 1 ∧
      ∃ ch, readCell st.board (cell.1 - 1) cell.2 = .ok ch ∧
        ch ≠ character ∧ ch ≠ 'O' := by
  unfold blockedDir1 at h
  split at h
  · cases h; simp at h0
  · rename_i hp
    obtain ⟨ch, hch, hpure⟩ := bindE_ok_inv h
    obtain rfl : l = _ := (Except.ok.inj hpure).symm
    refine ⟨by omega, ch, hch, ?_⟩
    by_cases hcc : ch = character ∨ ch = 'O'
    · rw [if_pos hcc] at h0; simp at h0
    · push_neg at hcc; exact hcc

lemma blockedDir2_not_mem {st : GenState} {cell : Cell} {character : Char}
    {l : List Int} (h : blockedDir2 st cell character = .ok l)
    (h0 : (2 : Int) ∉ l) :
    cell.2 + 1 < st.boardWidth ∧
      ∃ ch, readCell st.board cell.1 (cell.2 + 1) = .ok ch ∧
        ch ≠ character ∧ ch ≠ 'O' := by
  unfold blockedDir2 at h
  split at h
  · cases h; simp at h0
  · rename_i hp
    obtain ⟨ch, hch, hpure⟩ := bindE_ok_inv h
    obtain rfl : l = _ := (Except.ok.inj hpure).symm
    refine ⟨by omega, ch, hch, ?_⟩
    by_cases hcc : ch = character ∨ ch = 'O'
    · rw [if_pos hcc] at h0; simp at h0
    · push_neg at hcc; exact hcc

lemma blockedDir3_not_mem {st : GenState} {cell : Cell} {character : Char}
    {l : List Int} (h : blockedDir3 st cell character = .ok l)
    (h0 : (3 : Int) ∉ l) :
    0 ≤ cell.2 - 1 ∧
      ∃ ch, readCell st.board cell.1 (cell.2 - 1) = .ok ch ∧
        ch ≠ character ∧ ch ≠ 'O' := by
  unfold blockedDir3 at h
  split at h
  · cases h; simp at h0
  · rename_i hp
    obtain ⟨ch, hch, hpure⟩ := bindE_ok_inv h
    obtain rfl : l = _ := (Except.ok.inj hpure).symm
    refine ⟨by omega, ch, hch, ?_⟩
    by_cases hcc : ch = character ∨ ch = 'O'
    · rw [if_pos hcc] at h0; simp at h0
    · push_neg at hcc; exact hcc

/-! ### `foundUnvisitedCell` -/

lemma unvisited0_ok {st : GenState} {cell : Cell}
    (hs : Shape st.board st.boardWidth st.boardHeight)
    (hc : InB st.boardWidth st.boardHeight cell) :
    ∃ l, unvisited0 st cell = .ok l ∧
      ∀ v ∈ l, v = ((cell.1 + 1, cell.2) : Cell) ∧
        readCell st.board (cell.1 + 1) cell.2 = .ok '.' ∧
        cell.1 + 1 < st.boardHeight := by
  obtain ⟨hc1, hc2, hc3, hc4⟩ := hc
  unfold unvisited0
  by_cases hp : cell.1 + 1 < st.boardHeight
  · obtain ⟨ch, hch, -⟩ :=
      @readCell_ok st.board st.boardWidth st.boardHeight hs
        (cell.1 + 1) cell.2 (by omega) (by omega) (by omega) (by omega)
    rw [if_pos hp]
    refine ⟨if ch = '.' then [(cell.1 + 1, cell.2)] else [], by simp [hch], ?_⟩
    intro v hv
    by_cases hd : ch = '.'
    · rw [if_pos hd] at hv
      simp only [List.mem_singleton] at hv
      exact ⟨hv, hd ▸ hch, hp⟩
    · rw [if_neg hd] at hv
      simp at hv
  · rw [if_neg hp]
    exact ⟨[], rfl, by simp⟩

lemma unvisited1_ok {st : GenState} {cell : Cell}
    (hs : Shape st.board st.boardWidth st.boardHeight)
    (hc : InB st.boardWidth st.boardHeight cell) :
    ∃ l, unvisited1 st cell = .ok l ∧
      ∀ v ∈ l, v = ((cell.1 - 1, cell.2) : Cell) ∧
        readCell st.board (cell.1 - 1) cell.2 = .ok '.' ∧
        0 ≤ cell.1 - 1 := by
  obtain ⟨hc1, hc2, hc3, hc4⟩ := hc
  unfold unvisited1
  by_cases hp : 0 ≤ cell.1 - 1
  · obtain ⟨ch, hch, -⟩ :=
      @readCell_ok st.board st.boardWidth st.boardHeight hs
        (cell.1 - 1) cell.2 (by omega) (by omega) (by omega) (by omega)
    rw [if_pos hp]
    refine ⟨if ch = '.' then [(cell.1 - 1, cell.2)] else [], by simp [hch], ?_⟩
    intro v hv
    by_cases hd : ch = '.'
    · rw [if_pos hd] at hv
      simp only [List.mem_singleton] at hv
      exact ⟨hv, hd ▸ hch, hp⟩
    · rw [if_neg hd] at hv
      simp at hv
  · rw [if_neg hp]
    exact ⟨[], rfl, by simp⟩

lemma unvisited2_ok {st : GenState} {cell : Cell}
    (hs : Shape st.board st.boardWidth st.boardHeight)
    (hc : InB st.boardWidth st.boardHeight cell) :
    ∃ l, unvisited2 st cell = .ok l ∧
      ∀ v ∈ l, v = ((cell.1, cell.2 + 1) : Cell) ∧
        readCell st.board cell.1 (cell.2 + 1) = .ok '.' ∧
        cell.2 + 1 < st.boardWidth := by
  obtain ⟨hc1, hc2, hc3, hc4⟩ := hc
  unfold unvisited2
  by_cases hp : cell.2 + 1 < st.boardWidth
  · obtain ⟨ch, hch, -⟩ :=
      @readCell_ok st.board st.boardWidth st.boardHeight hs
        cell.1 (cell.2 + 1) (by omega) (by omega) (by omega) (by omega)
    rw [if_pos hp]
    refine ⟨if ch = '.' then [(cell.1, cell.2 + 1)] else [], by simp [hch], ?_⟩
    intro v hv
    by_cases hd : ch = '.'
    · rw [if_pos hd] at hv
      simp only [List.mem_singleton] at hv
      exact ⟨hv, hd ▸ hch, hp⟩
    · rw [if_neg hd] at hv
      simp at hv
  · rw [if_neg hp]
    exact ⟨[], rfl, by simp⟩

lemma unvisited3_ok {st : GenState} {cell : Cell}
    (hs : Shape st.board st.boardWidth st.boardHeight)
    (hc : InB st.boardWidth st.boardHeight cell) :
    ∃ l, unvisited3 st cell = .ok l ∧
      ∀ v ∈ l, v = ((cell.1, cell.2 - 1) : Cell) ∧
        readCell st.board cell.1 (cell.2 - 1) = .ok '.' ∧
        0 ≤ cell.2 - 1 := by
  obtain ⟨hc1, hc2, hc3, hc4⟩ := hc
  unfold unvisited3
  by_cases hp : 0 ≤ cell.2 - 1
  · obtain ⟨ch, hch, -⟩ :=
      @readCell_ok st.board st.boardWidth st.boardHeight hs
        cell.1 (cell.2 - 1) (by omega) (by omega) (by omega) (by omega)
    rw [if_pos hp]
    refine ⟨if ch = '.' then [(cell.1, cell.2 - 1)] else [], by simp [hch], ?_⟩
    intro v hv
    by_cases hd : ch = '.'
    · rw [if_pos hd] at hv
      simp only [List.mem_singleton] at hv
      exact ⟨hv, hd ▸ hch, hp⟩
    · rw [if_neg hd] at hv
      simp at hv
  · rw [if_neg hp]
    exact ⟨[], rfl, by simp⟩

lemma foundUnvisitedCell_ok {st : GenState} {cell : Cell} (s : Nat → Nat)
    (hs : Shape st.board st.boardWidth st.boardHeight)
    (hc : InB st.boardWidth st.boardHeight cell) :
    ∃ uv i', foundUnvisitedCell st cell s = .ok (uv, i') ∧
      ∀ u, uv = some u → InB st.boardWidth st.boardHeight u ∧
        readCell st.board u.1 u.2 = .ok '.' := by
  obtain ⟨hc1, hc2, hc3, hc4⟩ := hc
  obtain ⟨l0, e0, p0⟩ := unvisited0_ok hs ⟨hc1, hc2, hc3, hc4⟩
  obtain ⟨l1, e1, p1⟩ := unvisited1_ok hs ⟨hc1, hc2, hc3, hc4⟩
  obtain ⟨l2, e2, p2⟩ := unvisited2_ok hs ⟨hc1, hc2, hc3, hc4⟩
  obtain ⟨l3, e3, p3⟩ := unvisited3_ok hs ⟨hc1, hc2, hc3, hc4⟩
  rcases hcat : l0 ++ l1 ++ l2 ++ l3 with _ | ⟨x, xs⟩
  · refine ⟨none, st.idx, ?_, by simp⟩
    simp only [foundUnvisitedCell, e0, e1, e2, e3, bindE_ok, hcat]
    rfl
  · refine ⟨some ((x :: xs).getD (s st.idx % (xs.length + 1)) x), st.idx + 1,
      ?_, ?_⟩
    · simp only [foundUnvisitedCell, e0, e1, e2, e3, bindE_ok, hcat]
      rfl
    · intro u hu
      have hmem : u ∈ x :: xs := by
        rw [← Option.some.inj hu]
        exact getD_mem x xs _
      rw [← hcat] at hmem
      simp only [List.mem_append] at hmem
      rcases hmem with ((m0 | m1) | m2) | m3
      · obtain ⟨rfl, hr, hb⟩ := p0 u m0
        exact ⟨⟨by omega, by omega, by omega, by omega⟩, hr⟩
      · obtain ⟨rfl, hr, hb⟩ := p1 u m1
        exact ⟨⟨by omega, by omega, by omega, by omega⟩, hr⟩
      · obtain ⟨rfl, hr, hb⟩ := p2 u m2
        exact ⟨⟨by omega, by omega, by omega, by omega⟩, hr⟩
      · obtain ⟨rfl, hr, hb⟩ := p3 u m3
        exact ⟨⟨by omega, by omega, by omega, by omega⟩, hr⟩

/-! ### `drawUnblocked` and `move` -/

lemma drawUnblocked_error {s : Nat → Nat} {bl : List Int} {i fuel : Nat}
    {e : GenErr} (h : drawUnblocked s bl i fuel = .error e) : e = .drawFuel := by
  induction fuel generalizing i with
  | zero =>
    unfold drawUnblocked at h
    exact (Except.error.inj h).symm
  | succ fuel ih =>
    unfold drawUnblocked at h
    split at h
    · exact ih h
    · exact Except.noConfusion h

lemma drawUnblocked_ok_inv {s : Nat → Nat} {bl : List Int} {i fuel : Nat}
    {d : Int} {j : Nat} (h : drawUnblocked s bl i fuel = .ok (d, j)) :
    0 ≤ d ∧ d < 4 ∧ d ∉ bl ∧ i < j ∧ d = (s (j - 1) : Int) % 4 ∧
    ∀ m, i ≤ m → m + 1 < j → ((s m : Int) % 4) ∈ bl := by
  induction fuel generalizing i with
  | zero => exact Except.noConfusion h
  | succ fuel ih =>
    unfold drawUnblocked at h
    split at h
    · rename_i hmem
      obtain ⟨h1, h2, h3, h4, h5, h6⟩ := ih h
      refine ⟨h1, h2, h3, by omega, h5, ?_⟩
      intro m hm1 hm2
      rcases Nat.eq_or_lt_of_le hm1 with rfl | hlt
      · exact hmem
      · exact h6 m (by omega) hm2
    · rename_i hmem
      obtain ⟨rfl, rfl⟩ : d = (s i : Int) % 4 ∧ j = i + 1 := by
        have := Except.ok.inj h
        exact ⟨(congrArg Prod.fst this).symm, (congrArg Prod.snd this).symm⟩
      refine ⟨Int.emod_nonneg _ (by norm_num),
        Int.emod_lt_of_pos _ (by norm_num), hmem, by omega, by simp, ?_⟩
      intro m hm1 hm2
      omega

lemma move_noop {st : GenState} {bl : List Int} (s : Nat → Nat) (rj : Nat)
    (character : Char) (hlen : ¬bl.length < 4) :
    move st bl s rj character = .ok st := by
  unfold move
  rw [if_neg hlen]
  rfl

lemma move_facts {st : GenState} {bl : List Int} (s : Nat → Nat) (rj : Nat)
    (character : Char)
    (hs : Shape st.board st.boardWidth st.boardHeight)
    (hub : ∀ d : Int, 0 ≤ d → d < 4 → d ∉ bl →
      InB st.boardWidth st.boardHeight (dirTarget st.cur d))
    (hlen : bl.length < 4) :
    (∃ e, move st bl s rj character = .error e ∧ e = .drawFuel) ∨
    (∃ d i' b', drawUnblocked s bl st.idx rj = .ok (d, i') ∧ 0 ≤ d ∧ d < 4 ∧
      d ∉ bl ∧
      writeCell st.board (dirTarget st.cur d).1 (dirTarget st.cur d).2
        character = .ok b' ∧
      move st bl s rj character = .ok { st with
        board := b', cur := dirTarget st.cur d,
        path := st.path ++ [dirTarget st.cur d], idx := i',
        carves := st.carves + 1 }) := by
  rcases hdu : drawUnblocked s bl st.idx rj with e | ⟨d, i'⟩
  · left
    refine ⟨e, ?_, drawUnblocked_error hdu⟩
    unfold move
    rw [if_pos hlen]
    simp only [hdu, bindE_error]
  · right
    obtain ⟨h0, h1, h2, -, -, -⟩ := drawUnblocked_ok_inv hdu
    have htgt := hub d h0 h1 h2
    obtain ⟨b', hw⟩ := writeCell_ok hs htgt.1 htgt.2.1 htgt.2.2.1 htgt.2.2.2
      character
    refine ⟨d, i', b', rfl, h0, h1, h2, hw, ?_⟩
    unfold move
    rw [if_pos hlen]
    simp only [hdu, bindE_ok]
    rw [if_pos (show d = 0 ∨ d = 1 ∨ d = 2 ∨ d = 3 by omega)]
    simp only [hw, bindE_ok]
    rfl

lemma move_ok_path {st st' : GenState} {bl : List Int} {s : Nat → Nat}
    {rj : Nat} {character : Char}
    (h : move st bl s rj character = .ok st') :
    st'.path = st.path ∨
      ∃ cc, st'.path = st.path ++ [cc] ∧ st'.cur = cc ∧
        readCell st'.board cc.1 cc.2 = .ok character := by
  unfold move at h
  split at h
  · rcases hdu : drawUnblocked s bl st.idx rj with e | ⟨d, i'⟩
    · rw [hdu] at h
      simp only [bindE_error] at h
      exact Except.noConfusion h
    · rw [hdu] at h
      simp only [bindE_ok] at h
      obtain ⟨h0, h1, -, -, -, -⟩ := drawUnblocked_ok_inv hdu
      rw [if_pos (show d = 0 ∨ d = 1 ∨ d = 2 ∨ d = 3 by omega)] at h
      obtain ⟨b', hw, h⟩ := bindE_ok_inv h
      rw [pureE_eq] at h
      obtain rfl : st' = _ := (Except.ok.inj h).symm
      right
      exact ⟨dirTarget st.cur d, rfl, rfl, readCell_writeCell_self hw⟩
  · rw [pureE_eq] at h
    obtain rfl : st' = st := (Except.ok.inj h).symm
    exact Or.inl rfl

lemma inB_def {w h r c : Int} : InB w h (r, c) ↔
    0 ≤ r ∧ r < h ∧ 0 ≤ c ∧ c < w := Iff.rfl

lemma dirTarget0 (cur : Cell) : dirTarget cur 0 = (cur.1 + 1, cur.2) := by
  simp [dirTarget]

lemma dirTarget1 (cur : Cell) : dirTarget cur 1 = (cur.1 - 1, cur.2) := by
  norm_num [dirTarget]

lemma dirTarget2 (cur : Cell) : dirTarget cur 2 = (cur.1, cur.2 + 1) := by
  norm_num [dirTarget]

lemma dirTarget3 (cur : Cell) : dirTarget cur 3 = (cur.1, cur.2 - 1) := by
  norm_num [dirTarget]

/-! ### Characterizing one flattened loop iteration -/

/-- The end-of-iteration check of lines 56-57: set `finished` when no
`'.'` remains. -/
def dotsFin (st : GenState) : GenState :=
  if checkIfThereAreNoMoreDotsInTheBoard st.board then
    { st with finished := true }
  else st

lemma step_empty {s : Nat → Nat} {rj : Nat} {st : GenState}
    (hbt : st.isBacktracking = true) (hp : st.path = []) :
    step s rj st = .ok { st with finished := true } := by
  unfold step
  rw [if_neg (by simp [hp]), if_pos ⟨by simp [hbt], hp⟩]
  rfl

lemma step_pop {s : Nat → Nat} {rj : Nat} {st : GenState} (inv : StInv st)
    (hbt : st.isBacktracking = true) (hpne : st.path ≠ []) :
    ∃ cell b2, st.path.getLast? = some cell ∧
      writeCell st.board cell.1 cell.2 'O' = .ok b2 ∧
      ((∃ i', step s rj st = .ok { st with
          board := b2, path := st.path.dropLast, pops := st.pops + 1,
          idx := i', cur := cell }) ∨
       (∃ u i' b3, readCell b2 u.1 u.2 = .ok '.' ∧
          InB st.boardWidth st.boardHeight u ∧
          writeCell b2 u.1 u.2 'X' = .ok b3 ∧
          step s rj st = .ok { st with
            board := b3, path := st.path.dropLast, pops := st.pops + 1,
            idx := i', cur := u, carves := st.carves + 1,
            isBacktracking := false })) := by
  obtain ⟨cell, hlast⟩ := Option.isSome_iff_exists.mp
    (List.getLast?_isSome.mpr hpne)
  have hcellmem := List.mem_of_getLast?_eq_some hlast
  have hcellIn := inv.pathIn cell hcellmem
  obtain ⟨b2, hw2⟩ := writeCell_ok inv.shape hcellIn.1 hcellIn.2.1
    hcellIn.2.2.1 hcellIn.2.2.2 'O'
  have hs2 : Shape b2 st.boardWidth st.boardHeight :=
    writeCell_shape inv.shape hw2
  obtain ⟨uv, i', hfu, hfup⟩ :=
    @foundUnvisitedCell_ok { st with
      board := b2, path := st.path.dropLast, pops := st.pops + 1 }
      cell s hs2 hcellIn
  refine ⟨cell, b2, hlast, hw2, ?_⟩
  have hstep : step s rj st =
      (do
        let st2 ← moveToSpecificCell
          { st with path := st.path.dropLast, pops := st.pops + 1 } cell 'O'
        let r ← foundUnvisitedCell st2 cell s
        match r.1 with
        | some u => do
          let st4 ← moveToSpecificCell { st2 with
            idx := r.2, cur := u, carves := st2.carves + 1 } u 'X'
          pure { st4 with isBacktracking := false }
        | none => pure { st2 with idx := r.2, cur := cell }) := by
    unfold step
    rw [if_pos ⟨by simp [hbt], hpne⟩, hlast]
  rcases uv with _ | u
  · left
    refine ⟨i', ?_⟩
    rw [hstep]
    simp only [moveToSpecificCell, hw2, bindE_ok, hfu, pureE_eq]
  · right
    have hu := hfup u rfl
    obtain ⟨b3, hw3⟩ := writeCell_ok hs2 hu.1.1 hu.1.2.1 hu.1.2.2.1
      hu.1.2.2.2 'X'
    refine ⟨u, i', b3, hu.2, hu.1, hw3, ?_⟩
    rw [hstep]
    simp only [moveToSpecificCell, hw2, bindE_ok, hfu, hw3, pureE_eq]

lemma step_forward {s : Nat → Nat} {rj : Nat} {st : GenState} (inv : StInv st)
    (hbt : st.isBacktracking = false) :
    step s rj st = .error .drawFuel ∨
    ∃ bl, getBlockedDirections st st.cur 'X' = .ok bl ∧
      ((bl.length = 4 ∧
        step s rj st = .ok (dotsFin { st with isBacktracking := true })) ∨
       (bl.length < 4 ∧
        ∃ tgt b' i', InB st.boardWidth st.boardHeight tgt ∧
          readCell st.board tgt.1 tgt.2 = .ok '.' ∧
          writeCell st.board tgt.1 tgt.2 'X' = .ok b' ∧
          step s rj st = .ok (dotsFin { st with
            board := b', cur := tgt, path := st.path ++ [tgt], idx := i',
            carves := st.carves + 1 }))) := by
  obtain ⟨bl, hbl, hlen⟩ := getBlockedDirections_ok inv.shape inv.curIn 'X'
  have hnotb : ¬(st.isBacktracking = true ∧ st.path ≠ []) := by simp [hbt]
  have hnotb2 : ¬(st.isBacktracking = true ∧ st.path = []) := by simp [hbt]
  obtain ⟨l0, l1, l2, l3, e0, e1, e2, e3, rfl⟩ := getBlockedDirections_inv hbl
  have hub : ∀ d : Int, 0 ≤ d → d < 4 → d ∉ l0 ++ l1 ++ l2 ++ l3 →
      InB st.boardWidth st.boardHeight (dirTarget st.cur d) ∧
      readCell st.board (dirTarget st.cur d).1 (dirTarget st.cur d).2 =
        .ok '.' := by
    intro d hd0 hd4 hdbl
    simp only [List.mem_append] at hdbl
    push_neg at hdbl
    obtain ⟨hcur1, hcur2, hcur3, hcur4⟩ := inv.curIn
    have hdot : ∀ r c : Int, readCell st.board r c = .ok '.' ↔
        (∃ ch, readCell st.board r c = .ok ch ∧ ch ≠ 'X' ∧ ch ≠ 'O') := by
      intro r c
      constructor
      · intro h; exact ⟨'.', h, by decide, by decide⟩
      · rintro ⟨ch, hch, hx, ho⟩
        obtain ⟨row, hrow, hmem⟩ := readCell_mem hch
        rcases inv.alpha row hrow ch hmem with rfl | rfl | rfl
        · exact hch
        · exact absurd rfl hx
        · exact absurd rfl ho
    have : d = 0 ∨ d = 1 ∨ d = 2 ∨ d = 3 := by omega
    rcases this with rfl | rfl | rfl | rfl
    · obtain ⟨hbnd, ch, hch, hx, ho⟩ := blockedDir0_not_mem e0 hdbl.1.1.1
      have hread := (hdot (st.cur.1 + 1) st.cur.2).mpr ⟨ch, hch, hx, ho⟩
      rw [dirTarget0]
      exact ⟨inB_def.mpr ⟨by omega, by omega, by omega, by omega⟩, hread⟩
    · obtain ⟨hbnd, ch, hch, hx, ho⟩ := blockedDir1_not_mem e1 hdbl.1.1.2
      have hread := (hdot (st.cur.1 - 1) st.cur.2).mpr ⟨ch, hch, hx, ho⟩
      rw [dirTarget1]
      exact ⟨inB_def.mpr ⟨by omega, by omega, by omega, by omega⟩, hread⟩
    · obtain ⟨hbnd, ch, hch, hx, ho⟩ := blockedDir2_not_mem e2 hdbl.1.2
      have hread := (hdot st.cur.1 (st.cur.2 + 1)).mpr ⟨ch, hch, hx, ho⟩
      rw [dirTarget2]
      exact ⟨inB_def.mpr ⟨by omega, by omega, by omega, by omega⟩, hread⟩
    · obtain ⟨hbnd, ch, hch, hx, ho⟩ := blockedDir3_not_mem e3 hdbl.2
      have hread := (hdot st.cur.1 (st.cur.2 - 1)).mpr ⟨ch, hch, hx, ho⟩
      rw [dirTarget3]
      exact ⟨inB_def.mpr ⟨by omega, by omega, by omega, by omega⟩, hread⟩
  have hstep : step s rj st =
      (do
        let st2 ← move
          (if (l0 ++ l1 ++ l2 ++ l3).length = 4
            then { st with isBacktracking := true } else st)
          (l0 ++ l1 ++ l2 ++ l3) s rj 'X'
        pure (if checkIfThereAreNoMoreDotsInTheBoard st2.board then
                { st2 with finished := true }
              else st2)) := by
    unfold step
    rw [if_neg hnotb, if_neg hnotb2]
    simp only [hbl, bindE_ok]
  rcases Nat.lt_or_ge (l0 ++ l1 ++ l2 ++ l3).length 4 with h4 | h4
  · -- fewer than four blocked: the cursor moves
    have hne4 : (l0 ++ l1 ++ l2 ++ l3).length ≠ 4 := by omega
    rw [if_neg hne4] at hstep
    rcases move_facts s rj 'X' inv.shape (fun d a b c => (hub d a b c).1) h4 with
      ⟨e, hme, rfl⟩ | ⟨d, i', b', hdu, hd0, hd4, hdbl, hw, hmove⟩
    · left
      rw [hstep, hme]
      rfl
    · right
      refine ⟨l0 ++ l1 ++ l2 ++ l3, hbl, Or.inr ⟨h4, dirTarget st.cur d, b', i',
        (hub d hd0 hd4 hdbl).1, (hub d hd0 hd4 hdbl).2, hw, ?_⟩⟩
      rw [hstep]
      simp only [hmove, bindE_ok, pureE_eq]
      rfl
  · -- all four blocked: enter backtracking mode, `move` does nothing
    have h4' : (l0 ++ l1 ++ l2 ++ l3).length = 4 := by omega
    rw [if_pos h4'] at hstep
    right
    refine ⟨l0 ++ l1 ++ l2 ++ l3, hbl, Or.inl ⟨h4', ?_⟩⟩
    rw [hstep, move_noop s rj 'X' (by omega)]
    rfl

lemma dotsFin_inv {st2 : GenState} (h : StInv st2) : StInv (dotsFin st2) := by
  unfold dotsFin
  split
  · exact ⟨h.shape, h.curIn, h.pathIn, h.alpha⟩
  · exact h

lemma dotsFin_measure (st2 : GenState) : measureM (dotsFin st2) = measureM st2 := by
  unfold dotsFin
  split <;> rfl

lemma dotsFin_dims (st2 : GenState) :
    (dotsFin st2).boardWidth = st2.boardWidth ∧
    (dotsFin st2).boardHeight = st2.boardHeight := by
  unfold dotsFin
  split <;> exact ⟨rfl, rfl⟩

lemma dotsFin_parts (st2 : GenState) :
    (dotsFin st2).board = st2.board ∧ (dotsFin st2).path = st2.path ∧
    (dotsFin st2).cur = st2.cur ∧ (dotsFin st2).carves = st2.carves ∧
    (dotsFin st2).pops = st2.pops := by
  unfold dotsFin
  split <;> exact ⟨rfl, rfl, rfl, rfl, rfl⟩

/-- One loop iteration, from a well-formed state: it can only fail with the
redraw-fuel artifact, and a successful iteration preserves the invariant,
keeps the dimensions, and either finishes the run or strictly decreases the
termination measure. -/
lemma step_main {s : Nat → Nat} {rj : Nat} {st : GenState} (inv : StInv st) :
    (∀ e, step s rj st = .error e → e = .drawFuel) ∧
    (∀ st', step s rj st = .ok st' → StInv st' ∧
      st'.boardWidth = st.boardWidth ∧ st'.boardHeight = st.boardHeight ∧
      (st'.finished = true ∨ measureM st' < measureM st)) := by
  by_cases hbt : st.isBacktracking = true
  · by_cases hp : st.path = []
    · have he := @step_empty s rj st hbt hp
      constructor
      · intro e h
        rw [he] at h
        exact Except.noConfusion h
      · intro st' h
        rw [he] at h
        obtain rfl : st' = _ := (Except.ok.inj h).symm
        exact ⟨⟨inv.shape, inv.curIn, inv.pathIn, inv.alpha⟩, rfl, rfl,
          Or.inl rfl⟩
    · obtain ⟨cell, b2, hlast, hw2, hcase⟩ := @step_pop s rj st inv hbt hp
      have hcellIn := inv.pathIn cell (List.mem_of_getLast?_eq_some hlast)
      have hs2 := writeCell_shape inv.shape hw2
      have ha2 := writeCell_alpha inv.alpha hw2 (Or.inr (Or.inr rfl))
      have hplen : 0 < st.path.length := List.length_pos.mpr hp
      have hdlen : st.path.dropLast.length = st.path.length - 1 :=
        List.length_dropLast st.path
      have hdc2 : dotCount b2 ≤ dotCount st.board :=
        dotCount_write_le hw2 (by decide)
      have hdsub : ∀ p ∈ st.path.dropLast, InB st.boardWidth st.boardHeight p :=
        fun p hp2 => inv.pathIn p ((List.dropLast_sublist st.path).subset hp2)
      rcases hcase with ⟨i', hstep⟩ | ⟨u, i', b3, hru, huIn, hw3, hstep⟩
      · constructor
        · intro e h
          rw [hstep] at h
          exact Except.noConfusion h
        · intro st' h
          rw [hstep] at h
          obtain rfl : st' = _ := (Except.ok.inj h).symm
          refine ⟨⟨hs2, hcellIn, hdsub, ha2⟩, rfl, rfl, Or.inr ?_⟩
          simp only [measureM, hbt, List.length_dropLast, if_pos]
          simp [hbt]
          omega
      · have hdc3 : dotCount b3 < dotCount b2 :=
          dotCount_write_lt hw3 (by decide) hru
        constructor
        · intro e h
          rw [hstep] at h
          exact Except.noConfusion h
        · intro st' h
          rw [hstep] at h
          obtain rfl : st' = _ := (Except.ok.inj h).symm
          refine ⟨⟨writeCell_shape hs2 hw3, huIn, hdsub,
            writeCell_alpha ha2 hw3 (Or.inr (Or.inl rfl))⟩, rfl, rfl,
            Or.inr ?_⟩
          simp [measureM, hbt]
          omega
  · have hbf : st.isBacktracking = false := Bool.eq_false_iff.mpr hbt
    rcases step_forward inv hbf with herr | ⟨bl, hbl, hcase⟩
    · constructor
      · intro e h
        rw [herr] at h
        exact (Except.error.inj h).symm
      · intro st' h
        rw [herr] at h
        exact Except.noConfusion h
    · rcases hcase with ⟨h4, hstep⟩ | ⟨h4, tgt, b', i', htIn, htdot, hw, hstep⟩
      · constructor
        · intro e h
          rw [hstep] at h
          exact Except.noConfusion h
        · intro st' h
          rw [hstep] at h
          obtain rfl : st' = _ := (Except.ok.inj h).symm
          refine ⟨dotsFin_inv ⟨inv.shape, inv.curIn, inv.pathIn, inv.alpha⟩,
            (dotsFin_dims _).1, (dotsFin_dims _).2, Or.inr ?_⟩
          rw [dotsFin_measure]
          simp [measureM, hbf]
      · have hdc' : dotCount b' < dotCount st.board :=
          dotCount_write_lt hw (by decide) htdot
        constructor
        · intro e h
          rw [hstep] at h
          exact Except.noConfusion h
        · intro st' h
          rw [hstep] at h
          obtain rfl : st' = _ := (Except.ok.inj h).symm
          refine ⟨dotsFin_inv ⟨writeCell_shape inv.shape hw, htIn, ?_,
            writeCell_alpha inv.alpha hw (Or.inr (Or.inl rfl))⟩,
            (dotsFin_dims _).1, (dotsFin_dims _).2, Or.inr ?_⟩
          · intro p hp2
            rcases List.mem_append.mp hp2 with hin | hin
            · exact inv.pathIn p hin
            · rw [List.mem_singleton.mp hin]
              exact htIn
          · rw [dotsFin_measure]
            simp [measureM, hbf]
            omega

/-! ### The generation loop -/

lemma runSteps_facts {s : Nat → Nat} {rj : Nat} :
    ∀ (n : Nat) (st : GenState), StInv st →
    (∀ e, runSteps s rj n st = .error e → e = .drawFuel) ∧
    (∀ st', runSteps s rj n st = .ok st' → StInv st' ∧
      st'.boardWidth = st.boardWidth ∧ st'.boardHeight = st.boardHeight) := by
  intro n
  induction n with
  | zero =>
    intro st inv
    refine ⟨fun e h => Except.noConfusion h, fun st' h => ?_⟩
    obtain rfl : st' = st := (Except.ok.inj h).symm
    exact ⟨inv, rfl, rfl⟩
  | succ n ih =>
    intro st inv
    unfold runSteps
    by_cases hf : st.finished = true
    · rw [if_pos hf]
      refine ⟨fun e h => Except.noConfusion h, fun st' h => ?_⟩
      obtain rfl : st' = st := (Except.ok.inj h).symm
      exact ⟨inv, rfl, rfl⟩
    · rw [if_neg hf]
      rcases hstep : step s rj st with e | st1
      · simp only [hstep, bindE_error]
        refine ⟨fun e' h => ?_, fun st' h => Except.noConfusion h⟩
        rw [← Except.error.inj h]
        exact (step_main inv).1 e hstep
      · simp only [hstep, bindE_ok]
        obtain ⟨inv1, hd1, hd2, -⟩ := (step_main inv).2 st1 hstep
        obtain ⟨h1, h2⟩ := ih st1 inv1
        refine ⟨h1, fun st' h => ?_⟩
        obtain ⟨inv', d1, d2⟩ := h2 st' h
        exact ⟨inv', d1.trans hd1, d2.trans hd2⟩

lemma runSteps_fin {s : Nat → Nat} {rj : Nat} :
    ∀ (n : Nat) (st : GenState), StInv st →
    (st.finished = true ∨ measureM st < n) →
    ∀ st', runSteps s rj n st = .ok st' → st'.finished = true := by
  intro n
  induction n with
  | zero =>
    intro st inv hd st' h
    obtain rfl : st' = st := (Except.ok.inj h).symm
    rcases hd with hd | hd
    · exact hd
    · omega
  | succ n ih =>
    intro st inv hd st' h
    unfold runSteps at h
    by_cases hf : st.finished = true
    · rw [if_pos hf] at h
      obtain rfl : st' = st := (Except.ok.inj h).symm
      exact hf
    · rw [if_neg hf] at h
      rcases hstep : step s rj st with e | st1
      · rw [hstep] at h
        simp only [bindE_error] at h
        exact Except.noConfusion h
      · rw [hstep] at h
        simp only [bindE_ok] at h
        obtain ⟨inv1, -, -, hdec⟩ := (step_main inv).2 st1 hstep
        rcases hd with hd | hd
        · exact absurd hd hf
        · rcases hdec with hfin | hlt
          · exact ih st1 inv1 (Or.inl hfin) st' h
          · exact ih st1 inv1 (Or.inr (by omega)) st' h

/-! ### The start cell is never sealed and never pushed -/

lemma cell_eq_of_mk_eq {q c : Cell} (h : (q.1, q.2) = (c.1, c.2)) : q = c :=
  Prod.mk.eta.symm.trans (h.trans Prod.mk.eta)

lemma step_keepsX {s : Nat → Nat} {rj : Nat} {st st' : GenState}
    (inv : StInv st) (q : Cell)
    (hq : readCell st.board q.1 q.2 = .ok 'X') (hnp : q ∉ st.path)
    (h : step s rj st = .ok st') :
    readCell st'.board q.1 q.2 = .ok 'X' ∧ q ∉ st'.path := by
  by_cases hbt : st.isBacktracking = true
  · by_cases hp : st.path = []
    · rw [@step_empty s rj st hbt hp] at h
      obtain rfl : st' = _ := (Except.ok.inj h).symm
      exact ⟨hq, hnp⟩
    · obtain ⟨cell, b2, hlast, hw2, hcase⟩ := @step_pop s rj st inv hbt hp
      have hcellmem := List.mem_of_getLast?_eq_some hlast
      have hcne : (q.1, q.2) ≠ (cell.1, cell.2) := fun hcontra =>
        hnp (cell_eq_of_mk_eq hcontra ▸ hcellmem)
      have hq2 : readCell b2 q.1 q.2 = .ok 'X' := by
        rw [readCell_writeCell_other hw2 hcne]
        exact hq
      have hnp' : q ∉ st.path.dropLast :=
        fun hin => hnp ((List.dropLast_sublist st.path).subset hin)
      rcases hcase with ⟨i', hstep⟩ | ⟨u, i', b3, hru, huIn, hw3, hstep⟩
      · rw [hstep] at h
        obtain rfl : st' = _ := (Except.ok.inj h).symm
        exact ⟨hq2, hnp'⟩
      · have hune : (q.1, q.2) ≠ (u.1, u.2) := by
          intro hcontra
          rw [cell_eq_of_mk_eq hcontra] at hq2
          exact absurd (Except.ok.inj (hq2.symm.trans hru)) (by decide)
        rw [hstep] at h
        obtain rfl : st' = _ := (Except.ok.inj h).symm
        refine ⟨?_, hnp'⟩
        rw [readCell_writeCell_other hw3 hune]
        exact hq2
  · have hbf : st.isBacktracking = false := Bool.eq_false_iff.mpr hbt
    rcases step_forward inv hbf with herr | ⟨bl, hbl, hcase⟩
    · rw [herr] at h
      exact Except.noConfusion h
    · rcases hcase with ⟨h4, hstep⟩ | ⟨h4, tgt, b', i', htIn, htdot, hw, hstep⟩
      · rw [hstep] at h
        obtain rfl : st' = _ := (Except.ok.inj h).symm
        obtain ⟨hb, hpth, -, -, -⟩ :=
          dotsFin_parts { st with isBacktracking := true }
        exact ⟨by rw [hb]; exact hq, by rw [hpth]; exact hnp⟩
      · have htne : (q.1, q.2) ≠ (tgt.1, tgt.2) := by
          intro hcontra
          rw [cell_eq_of_mk_eq hcontra] at hq
          exact absurd (Except.ok.inj (hq.symm.trans htdot)) (by decide)
        rw [hstep] at h
        obtain rfl : st' = _ := (Except.ok.inj h).symm
        obtain ⟨hb, hpth, -, -, -⟩ := dotsFin_parts _
        constructor
        · rw [hb]
          show readCell b' q.1 q.2 = .ok 'X'
          rw [readCell_writeCell_other hw htne]
          exact hq
        · rw [hpth]
          show q ∉ st.path ++ [tgt]
          intro hin
          rcases List.mem_append.mp hin with hin | hin
          · exact hnp hin
          · exact htne (by rw [List.mem_singleton.mp hin])

lemma runSteps_keepsX {s : Nat → Nat} {rj : Nat} :
    ∀ (n : Nat) (st : GenState), StInv st → ∀ (q : Cell),
    readCell st.board q.1 q.2 = .ok 'X' → q ∉ st.path →
    ∀ st', runSteps s rj n st = .ok st' →
    readCell st'.board q.1 q.2 = .ok 'X' ∧ q ∉ st'.path := by
  intro n
  induction n with
  | zero =>
    intro st inv q hq hnp st' h
    obtain rfl : st' = st := (Except.ok.inj h).symm
    exact ⟨hq, hnp⟩
  | succ n ih =>
    intro st inv q hq hnp st' h
    unfold runSteps at h
    by_cases hf : st.finished = true
    · rw [if_pos hf] at h
      obtain rfl : st' = st := (Except.ok.inj h).symm
      exact ⟨hq, hnp⟩
    · rw [if_neg hf] at h
      rcases hstep : step s rj st with e | st1
      · rw [hstep] at h
        simp only [bindE_error] at h
        exact Except.noConfusion h
      · rw [hstep] at h
        simp only [bindE_ok] at h
        obtain ⟨inv1, -, -, -⟩ := (step_main inv).2 st1 hstep
        obtain ⟨hq1, hnp1⟩ := step_keepsX inv q hq hnp hstep
        exact ih st1 inv1 q hq1 hnp1 st' h

/-! ### The start-cell phase -/

lemma randint_ok_inv {lo hi : Int} {s : Nat → Nat} {i : Nat} {v : Int}
    {j : Nat} (h : randint lo hi s i = .ok (v, j)) :
    lo ≤ hi ∧ lo ≤ v ∧ v ≤ hi ∧ j = i + 1 := by
  unfold randint at h
  split at h
  · exact Except.noConfusion h
  · rename_i hlo
    have hinj := Except.ok.inj h
    obtain ⟨rfl, rfl⟩ : v = lo + (s i : Int) % (hi - lo + 1) ∧ j = i + 1 :=
      ⟨(congrArg Prod.fst hinj).symm, (congrArg Prod.snd hinj).symm⟩
    have hmn := Int.emod_nonneg ((s i : Int))
      (show hi - lo + 1 ≠ 0 by omega)
    have hmx := Int.emod_lt_of_pos ((s i : Int))
      (show (0 : Int) < hi - lo + 1 by omega)
    exact ⟨by omega, by omega, by omega, rfl⟩

lemma initPhase_inv {b : Board} {w h : Int} {s : Nat → Nat} {st0 : GenState}
    (hsb : Shape b w h) (hab : AlphaOK b)
    (hinit : initPhase b w h s = .ok st0) :
    StInv st0 ∧ st0.boardWidth = w ∧ st0.boardHeight = h ∧
    st0.finished = false ∧ st0.path = [] ∧ st0.isBacktracking = false ∧
    1 ≤ w ∧ 1 ≤ h ∧ InB w h st0.cur ∧
    writeCell b st0.cur.1 st0.cur.2 'X' = .ok st0.board ∧
    readCell st0.board st0.cur.1 st0.cur.2 = .ok 'X' ∧
    st0.carves = 1 ∧ st0.pops = 0 := by
  unfold initPhase at hinit
  obtain ⟨⟨r, i1⟩, hr1, hinit⟩ := bindE_ok_inv hinit
  obtain ⟨⟨c, i2⟩, hr2, hinit⟩ := bindE_ok_inv hinit
  obtain ⟨hh1, hr0, hrh, rfl⟩ := randint_ok_inv hr1
  obtain ⟨hw1, hc0, hcw, rfl⟩ := randint_ok_inv hr2
  obtain ⟨b', hwr, rfl⟩ := moveToSpecificCell_ok_inv hinit
  have hcurIn : InB w h (r, c) := inB_def.mpr ⟨by omega, by omega, by omega,
    by omega⟩
  refine ⟨⟨writeCell_shape hsb hwr, hcurIn, by simp, writeCell_alpha hab hwr
    (Or.inr (Or.inl rfl))⟩, rfl, rfl, rfl, rfl, rfl, by omega, by omega,
    hcurIn, hwr, readCell_writeCell_self hwr, rfl, rfl⟩

lemma initPhase_err {b : Board} {w h : Int} (s : Nat → Nat)
    (hwh : w ≤ 0 ∨ h ≤ 0) : initPhase b w h s = .error .emptyRange := by
  unfold initPhase randint
  by_cases hh0 : h - 1 < 0
  · rw [if_pos hh0]
    rfl
  · rw [if_neg hh0]
    simp only [bindE_ok]
    rw [if_pos (show w - 1 < 0 by omega)]
    rfl

lemma initPhase_ok {b : Board} {w h : Int} (s : Nat → Nat) (hw : 1 ≤ w)
    (hh : 1 ≤ h) (hsb : Shape b w h) :
    ∃ st0, initPhase b w h s = .ok st0 := by
  have e1 : randint 0 (h - 1) s 0 =
      .ok (0 + (s 0 : Int) % (h - 1 - 0 + 1), 0 + 1) := by
    unfold randint
    rw [if_neg (show ¬h - 1 < 0 by omega)]
  have e2 : randint 0 (w - 1) s (0 + 1) =
      .ok (0 + (s (0 + 1) : Int) % (w - 1 - 0 + 1), 0 + 1 + 1) := by
    unfold randint
    rw [if_neg (show ¬w - 1 < 0 by omega)]
  have hr0 := Int.emod_nonneg ((s 0 : Int)) (show h - 1 - 0 + 1 ≠ 0 by omega)
  have hrh := Int.emod_lt_of_pos ((s 0 : Int))
    (show (0 : Int) < h - 1 - 0 + 1 by omega)
  have hcn := Int.emod_nonneg ((s (0 + 1) : Int))
    (show w - 1 - 0 + 1 ≠ 0 by omega)
  have hcw := Int.emod_lt_of_pos ((s (0 + 1) : Int))
    (show (0 : Int) < w - 1 - 0 + 1 by omega)
  have hcIn : InB w h (0 + (s 0 : Int) % (h - 1 - 0 + 1),
      0 + (s (0 + 1) : Int) % (w - 1 - 0 + 1)) :=
    inB_def.mpr ⟨by omega, by omega, by omega, by omega⟩
  obtain ⟨st', hst'⟩ :=
    @moveToSpecificCell_ok
      { board := b, boardWidth := w, boardHeight := h, finished := false,
        path := [], isBacktracking := false,
        cur := (0 + (s 0 : Int) % (h - 1 - 0 + 1),
                0 + (s (0 + 1) : Int) % (w - 1 - 0 + 1)),
        idx := 0 + 1 + 1, carves := 1, pops := 0 }
      (0 + (s 0 : Int) % (h - 1 - 0 + 1),
       0 + (s (0 + 1) : Int) % (w - 1 - 0 + 1))
      hsb hcIn 'X'
  refine ⟨st', ?_⟩
  unfold initPhase
  simp only [e1, bindE_ok, e2]
  exact hst'

/-- A successful generation run decomposed into its phases, with the
invariant and finishedness of the state the loop delivers. -/
lemma generate_inv {w h : Int} {s : Nat → Nat} {rj : Nat} {st : GenState}
    (hg : generate w h s rj = .ok st) :
    ∃ st0 st1, initPhase (freshBoard w h) w h s = .ok st0 ∧
      runSteps s rj (genFuel w h) st0 = .ok st1 ∧ st1.finished = true ∧
      StInv st1 ∧ st1.boardWidth = w ∧ st1.boardHeight = h ∧
      st = { st1 with board := polishBoard st1.board } := by
  unfold generate procedurelyGeneratedBoard at hg
  obtain ⟨st0, h0, hg⟩ := bindE_ok_inv hg
  obtain ⟨st1, h1, hg⟩ := bindE_ok_inv hg
  rw [pureE_eq] at hg
  obtain rfl : st = _ := (Except.ok.inj hg).symm
  obtain ⟨inv0, hbw, hbh, hf0, hp0, hib0, hw1, hh1, hcur0, hwcell, hrd0, -, -⟩ :=
    initPhase_inv (shape_freshBoard w h) (alpha_freshBoard w h) h0
  have hdotlt : dotCount st0.board < h.toNat * w.toNat := by
    have hlt := dotCount_write_lt hwcell (by decide)
      (readCell_freshBoard hcur0.1 hcur0.2.1 hcur0.2.2.1 hcur0.2.2.2)
    rw [dotCount_freshBoard] at hlt
    exact hlt
  have hm0 : measureM st0 < genFuel w h := by
    unfold measureM genFuel
    simp [hp0, hib0]
    omega
  have hfin : st1.finished = true :=
    runSteps_fin (genFuel w h) st0 inv0 (Or.inr hm0) st1 h1
  obtain ⟨inv1, hd1, hd2⟩ := (runSteps_facts (genFuel w h) st0 inv0).2 st1 h1
  refine ⟨st0, st1, h0, h1, hfin, inv1, hd1.trans hbw, hd2.trans hbh, ?_⟩
  rw [if_pos hfin]

lemma runSteps_step_finished {s : Nat → Nat} {rj : Nat} {n : Nat}
    {st stF : GenState} (hf : st.finished = false)
    (hstep : step s rj st = .ok stF) (hFf : stF.finished = true) :
    runSteps s rj (n + 1) st = .ok stF := by
  unfold runSteps
  rw [if_neg (by simp [hf]), hstep]
  simp only [bindE_ok]
  cases n with
  | zero => rfl
  | succ n =>
    unfold runSteps
    rw [if_pos hFf]

/-! ### Concrete draw streams and states used by the claim theorems -/

/-- A concrete draw stream: the listed draws, then zeros. -/
def streamOf (l : List Nat) : Nat → Nat := fun n => l.getD n 0

/-- The final state of the `2 × 1` run driven by draws `0, 0, 2`. -/
def finalState21 : GenState :=
  ⟨[['#', '#']], 2, 1, true, [(0, 1)], false, (0, 1), 3, 2, 0⟩

/-- The state after the start-cell phase of that same `2 × 1` run. -/
def initState21 : GenState :=
  ⟨[['X', '.']], 2, 1, false, [], false, (0, 0), 2, 1, 0⟩

/-! ### Claim C1 -/

/-- Claim C1 (counterexample): the spec bounds the run by `width × height`
carve/backtrack steps, but the `3 × 3` run driven by the listed draws
performs 9 carves and 2 pops — 11 such steps, exceeding `3 × 3 = 9`.  (The
run also contains an iteration that neither carves nor pops nor ends the
run: the all-blocked iteration that merely switches into backtracking
mode.) -/
theorem c1_counterexample :
    (generate 3 3 (streamOf [0, 1, 3, 0, 2, 0, 3, 0, 1, 1]) 4).map
      (fun st => (st.carves + st.pops, st.finished)) = .ok (11, true) ∧
    3 * 3 < 11 :=
  ⟨rfl, by norm_num⟩

/-- Claim C1 (amended): for any dimensions and any draw stream on which the
redraw loops succeed, the generator terminates within the `2·width·height`
flattened loop iterations baked into `generate`'s fuel: a successful run
always returns a `finished` state.  Each iteration either carves, pops one
stack entry, switches into backtracking mode, or ends the run; carves and
pops are each bounded by `width·height`, but their sum may exceed
`width × height`. -/
theorem generate_terminates (w h : Int) (s : Nat → Nat) (rj : Nat)
    (st : GenState) (hg : generate w h s rj = .ok st) : st.finished = true := by
  obtain ⟨st0, st1, -, -, hfin, -, -, -, rfl⟩ := generate_inv hg
  exact hfin

theorem generate_terminates_witness :
    generate 2 1 (streamOf [0, 0, 2]) 8 = .ok finalState21 ∧
    finalState21.finished = true :=
  ⟨rfl, generate_terminates 2 1 (streamOf [0, 0, 2]) 8 finalState21 rfl⟩

/-! ### Claim C2 -/

/-- Claim C2: generation is a deterministic function of the dimensions and
the seeded draw stream — two runs over equal streams (each on the fresh
all-unvisited grid `generate` builds) produce identical results, so a
fixed seed reproduces the grid bit for bit. -/
theorem generate_deterministic (w h : Int) (s1 s2 : Nat → Nat) (rj : Nat)
    (hs : ∀ n, s1 n = s2 n) : generate w h s1 rj = generate w h s2 rj := by
  rw [funext hs]

theorem generate_deterministic_witness :
    (∀ n : Nat, n + 0 = n) ∧
    generate 2 1 (fun n => n + 0) 8 = generate 2 1 (fun n => n) 8 :=
  ⟨fun n => Nat.add_zero n,
   generate_deterministic 2 1 (fun n => n + 0) (fun n => n) 8
     (fun n => Nat.add_zero n)⟩

/-! ### Claim C3 -/

/-- Claim C3 (counterexample): invalid dimensions do not fail through a
dedicated `InvalidDimensions` validation — the code has no dimension check
at all, and the failure is the random source's empty-range error
(Python `ValueError` from `random.randint(0, n-1)` with `n ≤ 0`), raised
while drawing the start cell.  The error type `GenErr`, transcribed from
the code's failure modes, has no dimension-validation variant. -/
theorem c3_counterexample :
    generate 0 5 (streamOf []) 8 = .error .emptyRange ∧
    generate 5 0 (streamOf []) 8 = .error .emptyRange ∧
    generate (-1) (-1) (streamOf []) 8 = .error .emptyRange :=
  ⟨rfl, rfl, rfl⟩

/-- Claim C3 (amended): with `width ≤ 0` or `height ≤ 0` the run fails
synchronously and immediately — before any cell of any buffer is written —
with the random source's empty-range error from the start-cell draw, and
this is the only way such a run can end; no grid is returned. -/
theorem invalid_dims_empty_range (b : Board) (w h : Int) (s : Nat → Nat)
    (rj : Nat) (hwh : w ≤ 0 ∨ h ≤ 0) :
    procedurelyGeneratedBoard b w h s rj = .error .emptyRange := by
  unfold procedurelyGeneratedBoard
  simp only [initPhase_err s hwh, bindE_error]

theorem invalid_dims_empty_range_witness :
    ((0 : Int) ≤ 0 ∨ (5 : Int) ≤ 0) ∧
    procedurelyGeneratedBoard [] 0 5 (streamOf []) 8 = .error .emptyRange :=
  ⟨Or.inl le_rfl,
   invalid_dims_empty_range [] 0 5 (streamOf []) 8 (Or.inl le_rfl)⟩

/-! ### Claim C5 -/

/-- Claim C5: the finalized grid of a successful run contains only the two
external markers, wall `'#'` and floor `'.'`, and never the internal
sentinels `'X'` (Carved) or `'O'` (Sealed). -/
theorem alphabet_closure (w h : Int) (s : Nat → Nat) (rj : Nat)
    (st : GenState) (hg : generate w h s rj = .ok st) :
    ∀ row ∈ st.board, ∀ ch ∈ row,
      (ch = '#' ∨ ch = '.') ∧ ch ≠ 'X' ∧ ch ≠ 'O' := by
  obtain ⟨st0, st1, -, -, -, inv1, -, -, rfl⟩ := generate_inv hg
  intro row hrow ch hch
  replace hrow : row ∈ polishBoard st1.board := hrow
  unfold polishBoard at hrow
  obtain ⟨row', hrow', rfl⟩ := List.mem_map.mp hrow
  obtain ⟨d, hd, rfl⟩ := List.mem_map.mp hch
  rcases inv1.alpha row' hrow' d hd with rfl | rfl | rfl
  · exact ⟨Or.inr rfl, by decide, by decide⟩
  · exact ⟨Or.inl rfl, by decide, by decide⟩
  · exact ⟨Or.inr rfl, by decide, by decide⟩

theorem alphabet_closure_witness :
    (('#' = '#' ∨ '#' = '.') ∧ '#' ≠ 'X' ∧ '#' ≠ 'O') ∧
    generate 2 1 (streamOf [0, 0, 2]) 8 = .ok finalState21 :=
  ⟨alphabet_closure 2 1 (streamOf [0, 0, 2]) 8 finalState21 rfl
     ['#', '#'] (by decide) '#' (by decide), rfl⟩

/-! ### Claim C6 -/

/-- Claim C6: in forward-carving mode with fewer than four blocked
directions, `move` chooses its direction by rejection sampling over the
full four-direction range: the stream is drawn one value at a time (each
reduced mod 4, i.e. `randint(0, 3)`), every draw that lands in the blocked
list is discarded and redrawn, the direction taken is the first unblocked
draw — never a blocked one — and the number of consumed draws is the
position of that first success, not a single draw over the unblocked
subset. -/
theorem move_rejection_sampling (st : GenState) (bl : List Int)
    (s : Nat → Nat) (rj : Nat) (ch : Char) (st' : GenState)
    (hlen : bl.length < 4) (h : move st bl s rj ch = .ok st') :
    ∃ d j, drawUnblocked s bl st.idx rj = .ok (d, j) ∧
      d ∉ bl ∧ 0 ≤ d ∧ d < 4 ∧ st.idx < j ∧ d = (s (j - 1) : Int) % 4 ∧
      (∀ m, st.idx ≤ m → m + 1 < j → ((s m : Int) % 4) ∈ bl) ∧
      st'.cur = dirTarget st.cur d := by
  unfold move at h
  rw [if_pos hlen] at h
  rcases hdu : drawUnblocked s bl st.idx rj with e | ⟨d, j⟩
  · rw [hdu] at h
    simp only [bindE_error] at h
    exact Except.noConfusion h
  · rw [hdu] at h
    simp only [bindE_ok] at h
    obtain ⟨h0, h1, h2, h3, h4, h5⟩ := drawUnblocked_ok_inv hdu
    rw [if_pos (show d = 0 ∨ d = 1 ∨ d = 2 ∨ d = 3 by omega)] at h
    obtain ⟨b', hw, h⟩ := bindE_ok_inv h
    rw [pureE_eq] at h
    obtain rfl : st' = _ := (Except.ok.inj h).symm
    exact ⟨d, j, rfl, h2, h0, h1, h3, h4, h5, rfl⟩

theorem move_rejection_sampling_witness :
    [(0 : Int), 1, 3].length < 4 ∧
    (∃ d j, drawUnblocked (streamOf [0, 3, 2]) [(0 : Int), 1, 3]
        (⟨[['X', '.']], 2, 1, false, [], false, (0, 0), 0, 1, 0⟩ :
          GenState).idx 8 = .ok (d, j) ∧
      d ∉ [(0 : Int), 1, 3] ∧ 0 ≤ d ∧ d < 4 ∧
      (⟨[['X', '.']], 2, 1, false, [], false, (0, 0), 0, 1, 0⟩ :
        GenState).idx < j ∧
      d = (streamOf [0, 3, 2] (j - 1) : Int) % 4 ∧
      (∀ m, (⟨[['X', '.']], 2, 1, false, [], false, (0, 0), 0, 1, 0⟩ :
          GenState).idx ≤ m → m + 1 < j →
        ((streamOf [0, 3, 2] m : Int) % 4) ∈ [(0 : Int), 1, 3]) ∧
      (⟨[['X', 'X']], 2, 1, false, [(0, 1)], false, (0, 1), 3, 2, 0⟩ :
        GenState).cur = dirTarget
        (⟨[['X', '.']], 2, 1, false, [], false, (0, 0), 0, 1, 0⟩ :
          GenState).cur d) :=
  ⟨by decide,
   move_rejection_sampling
     ⟨[['X', '.']], 2, 1, false, [], false, (0, 0), 0, 1, 0⟩
     [(0 : Int), 1, 3] (streamOf [0, 3, 2]) 8 'X'
     ⟨[['X', 'X']], 2, 1, false, [(0, 1)], false, (0, 1), 3, 2, 0⟩
     (by decide) rfl⟩

/-! ### Claim C8 -/

/-- Claim C8 (counterexample): generation does not begin by resetting the
grid to all-Unvisited.  On the dirty `1 × 3` buffer `['.', 'X', 'Q']` the
pre-existing `'X'` blocks carving and the `'Q'` survives into the output,
while the same dimensions, stream and fuel on a fresh buffer yield all
walls — so the initial all-Unvisited grid is the caller's responsibility,
not established by the generator. -/
theorem c8_counterexample :
    (procedurelyGeneratedBoard [['.', 'X', 'Q']] 3 1 (streamOf [0, 0, 2, 2])
      8).map (fun st => st.board) = .ok [['#', '#', 'Q']] ∧
    (generate 3 1 (streamOf [0, 0, 2, 2]) 8).map (fun st => st.board) =
      .ok [['#', '#', '#']] ∧
    [['#', '#', 'Q']] ≠ [['#', '#', '#']] :=
  ⟨rfl, rfl, by decide⟩

/-- Claim C8 (amended): the generator performs no initialization pass over
the buffer: before the loop it writes exactly one cell — the start cell,
set to Carved — and every other cell still reads exactly as in the buffer
the caller supplied.  The all-Unvisited initial grid is the caller's
precondition (`generate` builds it as `freshBoard`), not something the
generator establishes. -/
theorem init_writes_only_start (b : Board) (w h : Int) (s : Nat → Nat)
    (st0 : GenState) (h0 : initPhase b w h s = .ok st0) :
    writeCell b st0.cur.1 st0.cur.2 'X' = .ok st0.board ∧
    ∀ r c : Int, (r, c) ≠ (st0.cur.1, st0.cur.2) →
      readCell st0.board r c = readCell b r c := by
  unfold initPhase at h0
  obtain ⟨⟨r0, i1⟩, hr1, h0⟩ := bindE_ok_inv h0
  obtain ⟨⟨c0, i2⟩, hr2, h0⟩ := bindE_ok_inv h0
  obtain ⟨b', hwr, rfl⟩ := moveToSpecificCell_ok_inv h0
  exact ⟨hwr, fun r c hne => readCell_writeCell_other hwr hne⟩

theorem init_writes_only_start_witness :
    initPhase [['.', '.']] 2 1 (streamOf [0, 0]) = .ok initState21 ∧
    writeCell [['.', '.']] initState21.cur.1 initState21.cur.2 'X' =
      .ok initState21.board ∧
    readCell initState21.board 0 1 = readCell [['.', '.']] 0 1 :=
  ⟨rfl,
   (init_writes_only_start [['.', '.']] 2 1 (streamOf [0, 0])
     initState21 rfl).1,
   (init_writes_only_start [['.', '.']] 2 1 (streamOf [0, 0])
     initState21 rfl).2 0 1 (by decide)⟩

/-! ### Claim C4 -/

/-- Claim C4: the start cell chosen by the start-cell phase is never pushed
onto the backtrack stack and reads as Carved (`'X'`) after every number of
loop iterations, and in the finalized output of a successful run it is the
wall marker `'#'`. -/
theorem start_cell_invariant (w h : Int) (s : Nat → Nat) (rj : Nat)
    (st0 : GenState) (h0 : initPhase (freshBoard w h) w h s = .ok st0) :
    (∀ k stk, runSteps s rj k st0 = .ok stk →
      readCell stk.board st0.cur.1 st0.cur.2 = .ok 'X' ∧
      st0.cur ∉ stk.path) ∧
    (∀ st, generate w h s rj = .ok st →
      readCell st.board st0.cur.1 st0.cur.2 = .ok '#') := by
  obtain ⟨inv0, -, -, -, hp0, -, -, -, -, -, hrd0, -, -⟩ :=
    initPhase_inv (shape_freshBoard w h) (alpha_freshBoard w h) h0
  have hnp0 : st0.cur ∉ st0.path := by
    rw [hp0]
    exact List.not_mem_nil _
  refine ⟨fun k stk hk => runSteps_keepsX k st0 inv0 st0.cur hrd0 hnp0 stk hk,
    fun st hg => ?_⟩
  obtain ⟨st0', st1, h0', h1, hfin, inv1, -, -, rfl⟩ := generate_inv hg
  obtain rfl : st0 = st0' := Except.ok.inj (h0.symm.trans h0')
  obtain ⟨hX, -⟩ :=
    runSteps_keepsX (genFuel w h) st0 inv0 st0.cur hrd0 hnp0 st1 h1
  have hp := readCell_polish hX
  show readCell (polishBoard st1.board) st0.cur.1 st0.cur.2 = .ok '#'
  exact hp.trans (congrArg Except.ok (by decide))

theorem start_cell_invariant_witness :
    initPhase (freshBoard 2 1) 2 1 (streamOf [0, 0, 2]) = .ok initState21 ∧
    readCell finalState21.board initState21.cur.1 initState21.cur.2 =
      .ok '#' :=
  ⟨rfl, (start_cell_invariant 2 1 (streamOf [0, 0, 2]) 8 initState21 rfl).2
     finalState21 rfl⟩

/-! ### Claim C7 -/

/-- The `3 × 3` run of `c1_counterexample`'s stream, stopped after 8
flattened iterations: the iteration that pops `(2,1)`, seals it, and
carves `(2,2)` on the way out of backtracking has just run. -/
def c7Mid : Except GenErr GenState := do
  let st0 ← initPhase (freshBoard 3 3) 3 3
    (streamOf [0, 1, 3, 0, 2, 0, 3, 0, 1, 1])
  runSteps (streamOf [0, 1, 3, 0, 2, 0, 3, 0, 1, 1]) 4 8 st0

/-- The state `c7Mid` computes to. -/
def c7State : GenState :=
  ⟨[['X', 'X', '.'], ['X', 'X', '.'], ['O', 'O', 'X']], 3, 3, false,
   [(0, 0), (1, 0), (1, 1)], false, (2, 2), 8, 7, 2⟩

/-- Claim C7 (counterexample): the claim says every cell the cursor
advances into (other than the start cell) is pushed onto the backtrack
stack, so that the stack holds exactly the carved-but-not-finalized
positions.  But in this reachable state the cursor has just advanced into
the freshly carved cell `(2,2)` while exiting backtracking, and `(2,2)` is
not on the stack — the stack holds only `(0,0), (1,0), (1,1)` although
`(2,2)` (and other cells) are carved and not finalized. -/
theorem c7_counterexample :
    c7Mid = .ok c7State ∧ readCell c7State.board 2 2 = .ok 'X' ∧
    c7State.cur = (2, 2) ∧ ((2, 2) : Cell) ∉ c7State.path :=
  ⟨rfl, rfl, rfl, by decide⟩

/-- Claim C7 (amended): cells carved by a forward `move` are pushed onto
the stack (the push records the new cursor cell), and entries leave the
stack only through backtracking pops (one iteration pops exactly the last
entry); but a cell carved while exiting backtracking mode — like the start
cell — is made the cursor without being pushed, so the stack holds only
the forward-carved, not-yet-finalized positions in LIFO order, not all of
them. -/
theorem push_pop_discipline (s : Nat → Nat) (rj : Nat) (st st' : GenState)
    (inv : StInv st) :
    (st.isBacktracking = true → st.path ≠ [] → step s rj st = .ok st' →
      st'.path = st.path.dropLast) ∧
    (st.isBacktracking = false → step s rj st = .ok st' →
      st'.path = st.path ∨ ∃ cc, st'.path = st.path ++ [cc] ∧ st'.cur = cc ∧
        readCell st'.board cc.1 cc.2 = .ok 'X') := by
  constructor
  · intro hbt hpne h
    obtain ⟨cell, b2, hlast, hw2, hcase⟩ := @step_pop s rj st inv hbt hpne
    rcases hcase with ⟨i', hstep⟩ | ⟨u, i', b3, -, -, -, hstep⟩
    · rw [hstep] at h
      obtain rfl : st' = _ := (Except.ok.inj h).symm
      rfl
    · rw [hstep] at h
      obtain rfl : st' = _ := (Except.ok.inj h).symm
      rfl
  · intro hbf h
    rcases step_forward inv hbf with herr | ⟨bl, hbl, hcase⟩
    · rw [herr] at h
      exact Except.noConfusion h
    · rcases hcase with ⟨h4, hstep⟩ | ⟨h4, tgt, b', i', htIn, htdot, hw, hstep⟩
      · rw [hstep] at h
        obtain rfl : st' = _ := (Except.ok.inj h).symm
        exact Or.inl (dotsFin_parts _).2.1
      · rw [hstep] at h
        obtain rfl : st' = _ := (Except.ok.inj h).symm
        right
        obtain ⟨hb, hpth, hcur, -, -⟩ := dotsFin_parts _
        refine ⟨tgt, hpth, hcur, ?_⟩
        rw [hb]
        show readCell b' tgt.1 tgt.2 = .ok 'X'
        exact readCell_writeCell_self hw

theorem push_pop_discipline_witness :
    (⟨[['X', 'X']], 2, 1, false, [(0, 1)], true, (0, 1), 2, 2, 0⟩ :
      GenState).isBacktracking = true ∧
    (⟨[['X', 'O']], 2, 1, false, [], true, (0, 1), 2, 2, 1⟩ :
      GenState).path =
      (⟨[['X', 'X']], 2, 1, false, [(0, 1)], true, (0, 1), 2, 2, 0⟩ :
        GenState).path.dropLast :=
  ⟨rfl,
   (push_pop_discipline (streamOf []) 8
     ⟨[['X', 'X']], 2, 1, false, [(0, 1)], true, (0, 1), 2, 2, 0⟩
     ⟨[['X', 'O']], 2, 1, false, [], true, (0, 1), 2, 2, 1⟩
     ⟨by decide, by decide, by decide, by decide⟩).1 rfl (by decide) rfl⟩

/-! ### Claim C10 -/

/-- Claim C10: throughout a run on a fresh matching buffer with positive
dimensions, the board keeps its exact `w × h` shape and the cursor and
every stack entry stay inside the grid, so every checked read and write is
in bounds: the out-of-range access error is unreachable — the only
possible failure of a whole run is the redraw-loop fuel artifact. -/
theorem inbounds_access (w h : Int) (s : Nat → Nat) (rj : Nat) (hw : 1 ≤ w)
    (hh : 1 ≤ h) :
    (∀ e, generate w h s rj = .error e → e = .drawFuel) ∧
    (∀ k st0 stk, initPhase (freshBoard w h) w h s = .ok st0 →
      runSteps s rj k st0 = .ok stk →
      Shape stk.board w h ∧ InB w h stk.cur ∧ ∀ p ∈ stk.path, InB w h p) := by
  constructor
  · intro e he
    unfold generate procedurelyGeneratedBoard at he
    obtain ⟨st0, hok⟩ := initPhase_ok s hw hh (shape_freshBoard w h)
    rcases bindE_error_inv he with hini | ⟨st0', h0', hrest⟩
    · rw [hok] at hini
      exact Except.noConfusion hini
    · obtain ⟨inv0, -⟩ :=
        initPhase_inv (shape_freshBoard w h) (alpha_freshBoard w h) h0'
      rcases bindE_error_inv hrest with hrun | ⟨st1, h1, hpure⟩
      · exact (runSteps_facts _ st0' inv0).1 e hrun
      · rw [pureE_eq] at hpure
        exact Except.noConfusion hpure
  · intro k st0 stk h0 hk
    obtain ⟨inv0, hbw, hbh, -⟩ :=
      initPhase_inv (shape_freshBoard w h) (alpha_freshBoard w h) h0
    obtain ⟨invk, hkw, hkh⟩ := (runSteps_facts k st0 inv0).2 stk hk
    have hW : stk.boardWidth = w := hkw.trans hbw
    have hH : stk.boardHeight = h := hkh.trans hbh
    refine ⟨by rw [← hW, ← hH]; exact invk.shape,
      by rw [← hW, ← hH]; exact invk.curIn,
      fun p hp => by rw [← hW, ← hH]; exact invk.pathIn p hp⟩

theorem inbounds_access_witness :
    (1 : Int) ≤ 2 ∧ (1 : Int) ≤ 1 ∧
    (Shape initState21.board 2 1 ∧ InB 2 1 initState21.cur ∧
      ∀ p ∈ initState21.path, InB 2 1 p) :=
  ⟨by norm_num, le_rfl,
   (inbounds_access 2 1 (streamOf [0, 0, 2]) 8 (by norm_num) le_rfl).2 0
     initState21 initState21 rfl rfl⟩

/-! ### Claim C9 -/

/-- Claim C9: on the one-row two-column grid, every successful run — for
any stream and any redraw fuel — finalizes both cells as the wall marker:
the non-start cell is reached by a single forward carve, after which no
unvisited cell remains, so the run ends before any backtrack pop can seal
either cell. -/
theorem degenerate_strip_both_walls (s : Nat → Nat) (rj : Nat)
    (st : GenState) (hg : generate 2 1 s rj = .ok st) :
    st.board = [['#', '#']] := by
  obtain ⟨st0, st1, h0, h1, hfin, inv1, -, -, rfl⟩ := generate_inv hg
  unfold initPhase at h0
  obtain ⟨⟨r, i1⟩, hr1, h0⟩ := bindE_ok_inv h0
  obtain ⟨⟨c, i2⟩, hr2, h0⟩ := bindE_ok_inv h0
  have hr1' : r = 0 ∧ i1 = 1 := by
    unfold randint at hr1
    rw [if_neg (by norm_num)] at hr1
    have hinj := Except.ok.inj hr1
    constructor
    · have h5 : r = 0 + (s 0 : Int) % (1 - 1 - 0 + 1) :=
        (congrArg Prod.fst hinj).symm
      rw [h5]
      simp
    · exact (congrArg Prod.snd hinj).symm
  obtain ⟨rfl, rfl⟩ := hr1'
  have hr2' : c = (s 1 : Int) % 2 ∧ i2 = 2 := by
    unfold randint at hr2
    rw [if_neg (by norm_num)] at hr2
    have hinj := Except.ok.inj hr2
    constructor
    · have h5 : c = 0 + (s 1 : Int) % (2 - 1 - 0 + 1) :=
        (congrArg Prod.fst hinj).symm
      rw [h5]
      norm_num
    · exact (congrArg Prod.snd hinj).symm
  obtain ⟨hcv, rfl⟩ := hr2'
  obtain ⟨b', hwr, hst0⟩ := moveToSpecificCell_ok_inv h0
  have hc01 : c = 0 ∨ c = 1 := by
    have hn := Int.emod_nonneg ((s 1 : Int)) (by norm_num : (2 : Int) ≠ 0)
    have hx := Int.emod_lt_of_pos ((s 1 : Int)) (by norm_num : (0 : Int) < 2)
    omega
  have hfuel : genFuel 2 1 = 3 + 1 := rfl
  rw [hfuel] at h1
  rcases hc01 with rfl | rfl
  · -- start cell (0, 0)
    have hb' : b' = [['X', '.']] := by
      have e : writeCell (freshBoard 2 1) (0 : Int) (0 : Int) 'X' =
          .ok [['X', '.']] := rfl
      exact (Except.ok.inj (e.symm.trans hwr)).symm
    subst hb'
    have hst0c : st0 = GenState.mk [['X', '.']] 2 1 false [] false (0, 0)
        2 1 0 := by
      rw [hst0]
    rw [hst0c] at h1
    have inv0 : StInv (GenState.mk [['X', '.']] 2 1 false [] false (0, 0)
        2 1 0) := ⟨by decide, by decide, by decide, by decide⟩
    rcases step_forward inv0 rfl with herr | ⟨bl, hbl, hcase⟩
    · unfold runSteps at h1
      rw [if_neg (by decide), herr] at h1
      simp only [bindE_error] at h1
      exact Except.noConfusion h1
    · have hble : getBlockedDirections (GenState.mk [['X', '.']] 2 1 false
          [] false (0, 0) 2 1 0) ((0 : Int), (0 : Int)) 'X' =
          .ok [0, 1, 3] := rfl
      obtain rfl : bl = [0, 1, 3] := (Except.ok.inj (hble.symm.trans hbl)).symm
      rcases hcase with ⟨h4, hstep⟩ | ⟨h4, tgt, b'', i', htIn, htdot, hw, hstep⟩
      · exact absurd h4 (by decide)
      · obtain ⟨t1, t2⟩ := tgt
        have htIn2 : 0 ≤ t1 ∧ t1 < 1 ∧ 0 ≤ t2 ∧ t2 < 2 := inB_def.mp htIn
        obtain ⟨ht1, ht2, ht3, ht4⟩ := htIn2
        obtain rfl : t1 = 0 := by omega
        have ht2' : t2 = 0 ∨ t2 = 1 := by omega
        rcases ht2' with rfl | rfl
        · have e : readCell [['X', '.']] (0 : Int) (0 : Int) = .ok 'X' := rfl
          exact absurd (Except.ok.inj (e.symm.trans htdot)) (by decide)
        · have e : writeCell [['X', '.']] (0 : Int) (1 : Int) 'X' =
              .ok [['X', 'X']] := rfl
          obtain rfl : b'' = [['X', 'X']] :=
            (Except.ok.inj (e.symm.trans hw)).symm
          have hrun := @runSteps_step_finished s rj 3 _ _ rfl hstep rfl
          obtain rfl : st1 = _ := (Except.ok.inj (hrun.symm.trans h1)).symm
          rfl
  · -- start cell (0, 1)
    have hb' : b' = [['.', 'X']] := by
      have e : writeCell (freshBoard 2 1) (0 : Int) (1 : Int) 'X' =
          .ok [['.', 'X']] := rfl
      exact (Except.ok.inj (e.symm.trans hwr)).symm
    subst hb'
    have hst0c : st0 = GenState.mk [['.', 'X']] 2 1 false [] false (0, 1)
        2 1 0 := by
      rw [hst0]
    rw [hst0c] at h1
    have inv0 : StInv (GenState.mk [['.', 'X']] 2 1 false [] false (0, 1)
        2 1 0) := ⟨by decide, by decide, by decide, by decide⟩
    rcases step_forward inv0 rfl with herr | ⟨bl, hbl, hcase⟩
    · unfold runSteps at h1
      rw [if_neg (by decide), herr] at h1
      simp only [bindE_error] at h1
      exact Except.noConfusion h1
    · have hble : getBlockedDirections (GenState.mk [['.', 'X']] 2 1 false
          [] false (0, 1) 2 1 0) ((0 : Int), (1 : Int)) 'X' =
          .ok [0, 1, 2] := rfl
      obtain rfl : bl = [0, 1, 2] := (Except.ok.inj (hble.symm.trans hbl)).symm
      rcases hcase with ⟨h4, hstep⟩ | ⟨h4, tgt, b'', i', htIn, htdot, hw, hstep⟩
      · exact absurd h4 (by decide)
      · obtain ⟨t1, t2⟩ := tgt
        have htIn2 : 0 ≤ t1 ∧ t1 < 1 ∧ 0 ≤ t2 ∧ t2 < 2 := inB_def.mp htIn
        obtain ⟨ht1, ht2, ht3, ht4⟩ := htIn2
        obtain rfl : t1 = 0 := by omega
        have ht2' : t2 = 0 ∨ t2 = 1 := by omega
        rcases ht2' with rfl | rfl
        · have e : writeCell [['.', 'X']] (0 : Int) (0 : Int) 'X' =
              .ok [['X', 'X']] := rfl
          obtain rfl : b'' = [['X', 'X']] :=
            (Except.ok.inj (e.symm.trans hw)).symm
          have hrun := @runSteps_step_finished s rj 3 _ _ rfl hstep rfl
          obtain rfl : st1 = _ := (Except.ok.inj (hrun.symm.trans h1)).symm
          rfl
        · have e : readCell [['.', 'X']] (0 : Int) (1 : Int) = .ok 'X' := rfl
          exact absurd (Except.ok.inj (e.symm.trans htdot)) (by decide)

theorem degenerate_strip_both_walls_witness :
    generate 2 1 (streamOf [0, 0, 2]) 8 = .ok finalState21 ∧
    finalState21.board = [['#', '#']] :=
  ⟨rfl,
   degenerate_strip_both_walls (streamOf [0, 0, 2]) 8 finalState21 rfl⟩

end ProceduralBoard
